import Mathlib

/-!
Two-level task scheduler of the JAM shell

A shallow embedding of `Shell/src/scheduler.cpp` (with `execute_task` and
`execute_jam_script` of `Shell/src/commands.cpp`), of the pipeline executor
`handle_redirection_and_execute` and of the line dispatch of `run_shell_loop`
(`Shell/src/shell.cpp`), and proofs about them.

* `std::queue<Task>` is a `List Task`: `front`/`pop` take the head, `push`
  appends at the back.
* The three file-level statics `rr_queue`, `fcfs_queue`, `task_id_counter`
  are the fields of `Store`, passed explicitly.
* C++ `int` is `Int`; the only arithmetic in the scheduler is
  `task_id_counter++`, modelled with 32-bit two's-complement wrap-around.
* What a function writes to `std::cout` / `std::cerr` is returned as text.
* The script interpreter `run_jam_script` is external: it is a parameter,
  an arbitrary function on an arbitrary world type `W`.
-/

namespace Scheduler

/-! ## Data model (`scheduler.h`, `scheduler.cpp` lines 13-15) -/

/-- Record `struct Task` of `scheduler.h`. -/
structure Task where
  id : Int
  command : String
  priority : Int
deriving DecidableEq, Repr

/-- The statics of `scheduler.cpp`: both queues and the id counter. -/
structure Store where
  rr_queue : List Task
  fcfs_queue : List Task
  task_id_counter : Int
deriving DecidableEq, Repr

/-- State at program start: both queues empty, `task_id_counter = 1`. -/
def Store.fresh : Store := ⟨[], [], 1⟩

/-- Text written to the two standard streams by one call. -/
structure Console where
  cout : String
  cerr : String
deriving DecidableEq, Repr

/-- Largest value of a 32-bit `int`. -/
def INT_MAX : Int := 2147483647

/-- Result of 32-bit `int` arithmetic: the value reduced into
`[-2^31, 2^31)` as two's-complement hardware does. -/
def wrapInt (x : Int) : Int := (x + 2147483648) % 4294967296 - 2147483648

/-- Conversion `std::string::c_str`, read as a C string: the characters
before the first NUL. -/
def c_str (s : String) : String := String.mk (s.toList.takeWhile (fun ch => ch ≠ Char.ofNat 0))

/-- Outcome of `std::ifstream file(filename); file.is_open()`. The flag
`readable` is the answer of the operating system for that path at the time
of the call; the empty path can never be opened. -/
def ifstream_is_open (readable : Bool) (filename : String) : Bool :=
  decide (c_str filename ≠ "") && readable

/-! ## Task management -/

/-- Function `add_task` (lines 28-39). -/
def add_task (id : Int) (command : String) (priority : Int) (s : Store) : Store :=
  let task : Task := ⟨id, command, priority⟩
  if priority = 1 then
    { s with rr_queue := s.rr_queue ++ [task] }
  else
    { s with fcfs_queue := s.fcfs_queue ++ [task] }

/-- Function `jschedule_command` (lines 47-61). Besides the new store and the
console text it returns the id it handed to `add_task` (`none` when the file
did not open and nothing was scheduled). -/
def jschedule_command (filename : String) (priority : Int) (readable : Bool) (s : Store) :
    Store × Console × Option Int :=
  if ifstream_is_open readable filename = false then
    (s, ⟨"", "Error: Unable to open file " ++ filename ++ "\n"⟩, none)
  else
    let id := s.task_id_counter
    let s1 := { s with task_id_counter := wrapInt (s.task_id_counter + 1) }
    (add_task id filename priority s1,
      ⟨"[Script file " ++ filename ++ " scheduled as a single task]\n", ""⟩, some id)

/-! ## Task management utilities -/

/-- Loop of `print_scheduled_tasks` over a copy `temp` of a queue; `out` is the
text written so far. -/
def print_loop : List Task → String → String
  | [], out => out
  | t :: temp, out => print_loop temp (out ++ "[" ++ toString t.id ++ "] " ++ t.command ++ "\n")

/-- Function `print_scheduled_tasks` (lines 129-148): the text sent to `std::cout`. -/
def print_scheduled_tasks (s : Store) : Store × Console :=
  let out := "Scheduled Tasks (RR - High Priority):\n"
  let out := print_loop s.rr_queue out
  let out := out ++ "\nScheduled Tasks (FCFS - Low Priority):\n"
  let out := print_loop s.fcfs_queue out
  (s, ⟨out, ""⟩)

/-- Loop of `save_queues_to_file` over a copy `temp` of a queue; `out` is the
text written to the stream so far. -/
def save_loop : List Task → String → String
  | [], out => out
  | t :: temp, out =>
      save_loop temp (out ++ toString t.id ++ "," ++ toString t.priority ++ "," ++ t.command ++ "\n")

/-- Function `save_queues_to_file` (lines 155-173). The flag `writable` says
whether `std::ofstream out(filename)` opened; the result is the content of the
file afterwards (`none`: no file was written, the stream swallows the output). -/
def save_queues_to_file (writable : Bool) (s : Store) : Store × Option String :=
  let out := save_loop s.rr_queue ""
  let out := save_loop s.fcfs_queue out
  (s, if writable then some out else none)

/-- First loop shape of `cancel_task`: move every task whose id differs from
`id` from the queue to the back of `temp`. -/
def cancel_loop (id : Int) : List Task → List Task → List Task
  | [], temp => temp
  | t :: queue, temp =>
      if t.id ≠ id then cancel_loop id queue (temp ++ [t]) else cancel_loop id queue temp

/-- Function `cancel_task` (lines 180-203). -/
def cancel_task (id : Int) (s : Store) : Store × Console :=
  let temp := cancel_loop id s.rr_queue []
  let temp_fcfs := cancel_loop id s.fcfs_queue []
  ({ s with rr_queue := temp, fcfs_queue := temp_fcfs },
    ⟨"Task " ++ toString id ++ " cancelled.\n", ""⟩)

/-- Loop shape of `modify_task`: move every task to the back of `temp`,
rewriting the command of those whose id equals `id`. -/
def modify_loop (id : Int) (new_command : String) : List Task → List Task → List Task
  | [], temp => temp
  | t :: queue, temp =>
      let t1 := if t.id = id then { t with command := new_command } else t
      modify_loop id new_command queue (temp ++ [t1])

/-- Function `modify_task` (lines 211-236). -/
def modify_task (id : Int) (new_command : String) (s : Store) : Store × Console :=
  let temp := modify_loop id new_command s.rr_queue []
  let temp_fcfs := modify_loop id new_command s.fcfs_queue []
  ({ s with rr_queue := temp, fcfs_queue := temp_fcfs },
    ⟨"Task " ++ toString id ++ " modified.\n", ""⟩)

/-! ## Task execution (`commands.cpp`) and the scheduling pass -/

/-- What a scheduling pass does with a task, in program order of the calling
thread: `call t` is a complete synchronous call `execute_task(t)`, `spawn t`
the construction of a `std::thread` whose body is `execute_task(t)`, `join t`
the `join()` on that thread. -/
inductive Event where
  | call (t : Task)
  | spawn (t : Task)
  | join (t : Task)
deriving DecidableEq, Repr

/-- Everything outside the store that a pass touches: the world of the script
interpreter, the two standard streams and the record of events. -/
structure Effects (W : Type) where
  world : W
  cout : String
  cerr : String
  events : List Event

/-- Function `execute_jam_script` (`commands.cpp` lines 223-228); the interpreter
`run_jam_script` returns an exit code and the next world. -/
def execute_jam_script {W : Type} (run_jam_script : String → W → Int × W)
    (filename : String) (e : Effects W) : Effects W :=
  let r := run_jam_script filename e.world
  let result := r.1
  let e1 := { e with world := r.2 }
  if result ≠ 0 then
    { e1 with cerr := e1.cerr ++ "JAM execution failed with code: " ++ toString result ++ "\n" }
  else
    e1

/-- Function `execute_task` (`commands.cpp` lines 241-250). -/
def execute_task {W : Type} (run_jam_script : String → W → Int × W)
    (task : Task) (e : Effects W) : Effects W :=
  let filename := task.command
  if filename ≠ "" then
    let e1 := { e with cout := e.cout ++ "[Scheduler] Executing JAM script: " ++ filename ++ "\n" }
    execute_jam_script run_jam_script (c_str filename) e1
  else
    { e with cerr := e.cerr ++ "[Scheduler] Error: Empty filename in task command.\n" }

/-- Loop of `round_robin_schedule`: while the queue is not empty, take the front
task, pop it, and call `execute_task` on it. Returns the queue at loop exit. -/
def round_robin_loop {W : Type} (run_jam_script : String → W → Int × W) :
    List Task → Effects W → List Task × Effects W
  | [], e => ([], e)
  | t :: queue, e =>
      let e1 := execute_task run_jam_script t e
      round_robin_loop run_jam_script queue { e1 with events := e1.events ++ [Event.call t] }

/-- Function `round_robin_schedule` (lines 82-92). -/
def round_robin_schedule {W : Type} (run_jam_script : String → W → Int × W)
    (s : Store) (e : Effects W) : Store × Effects W :=
  let e0 := { e with cout := e.cout ++ "== Round Robin Queue (High Priority) ==\n" }
  let r := round_robin_loop run_jam_script s.rr_queue e0
  ({ s with rr_queue := r.1 }, r.2)

/-- First loop of `fcfs_schedule`: while the queue is not empty, take the front
task, pop it, and start a thread for it at the back of `threads`. Returns the
queue at loop exit, the threads and the events. -/
def fcfs_loop : List Task → List Task → List Event → List Task × List Task × List Event
  | [], threads, ev => ([], threads, ev)
  | t :: queue, threads, ev => fcfs_loop queue (threads ++ [t]) (ev ++ [Event.spawn t])

/-- Second loop of `fcfs_schedule`: join the threads in vector order. The
threads run concurrently with each other; the effect of a thread body on the
interpreter world and on the streams is accounted for at its join. -/
def join_loop {W : Type} (run_jam_script : String → W → Int × W) :
    List Task → Effects W → Effects W
  | [], e => e
  | t :: threads, e =>
      let e1 := execute_task run_jam_script t e
      join_loop run_jam_script threads { e1 with events := e1.events ++ [Event.join t] }

/-- Function `fcfs_schedule` (lines 97-110). -/
def fcfs_schedule {W : Type} (run_jam_script : String → W → Int × W)
    (s : Store) (e : Effects W) : Store × Effects W :=
  let e0 := { e with cout := e.cout ++ "== FCFS Queue (Low Priority) ==\n" }
  let r := fcfs_loop s.fcfs_queue [] e0.events
  let e1 := { e0 with events := r.2.2 }
  ({ s with fcfs_queue := r.1 }, join_loop run_jam_script r.2.1 e1)

/-- Function `multi_level_schedule` (lines 115-120). -/
def multi_level_schedule {W : Type} (run_jam_script : String → W → Int × W)
    (s : Store) (e : Effects W) : Store × Effects W :=
  let e0 := { e with cout := e.cout ++ "== Multi-Level Queue Scheduler ==\n" }
  let r := round_robin_schedule run_jam_script s e0
  fcfs_schedule run_jam_script r.1 r.2

/-! ## Sequences of operations -/

/-- One call on the task store, with the answers of the environment it needs. -/
inductive Op where
  | add (filename : String) (priority : Int) (readable : Bool)
  | cancel (id : Int)
  | modify (id : Int) (new_command : String)
  | print
  | save (writable : Bool)
  | schedule
deriving DecidableEq, Repr

/-- Executes one operation; returns the next store, the next effects and the id
handed out when the operation was a successful `jschedule_command`. -/
def step {W : Type} (run_jam_script : String → W → Int × W) (s : Store) (e : Effects W) :
    Op → Store × Effects W × Option Int
  | Op.add filename priority readable =>
      let r := jschedule_command filename priority readable s
      (r.1, { e with cout := e.cout ++ r.2.1.cout, cerr := e.cerr ++ r.2.1.cerr }, r.2.2)
  | Op.cancel id =>
      let r := cancel_task id s
      (r.1, { e with cout := e.cout ++ r.2.cout, cerr := e.cerr ++ r.2.cerr }, none)
  | Op.modify id new_command =>
      let r := modify_task id new_command s
      (r.1, { e with cout := e.cout ++ r.2.cout, cerr := e.cerr ++ r.2.cerr }, none)
  | Op.print =>
      let r := print_scheduled_tasks s
      (r.1, { e with cout := e.cout ++ r.2.cout, cerr := e.cerr ++ r.2.cerr }, none)
  | Op.save writable => ((save_queues_to_file writable s).1, e, none)
  | Op.schedule =>
      let r := multi_level_schedule run_jam_script s e
      (r.1, r.2, none)

/-- Executes a sequence of operations from left to right; `ids` collects, in
order, the ids handed out by the successful `jschedule_command` calls. -/
def run {W : Type} (run_jam_script : String → W → Int × W) :
    List Op → Store → Effects W → List Int → Store × Effects W × List Int
  | [], s, e, ids => (s, e, ids)
  | op :: ops, s, e, ids =>
      let r := step run_jam_script s e op
      run run_jam_script ops r.1 r.2.1 (ids ++ r.2.2.toList)

/-- Number of `jschedule_command` calls in a sequence whose file opens. -/
def successfulAdds : List Op → Nat
  | [] => 0
  | Op.add filename _ readable :: ops =>
      (if ifstream_is_open readable filename then 1 else 0) + successfulAdds ops
  | _ :: ops => successfulAdds ops

/-- The tasks listed by `print_scheduled_tasks` and written by
`save_queues_to_file`, in the order the two loops visit them. -/
def snapshot (s : Store) : List Task := s.rr_queue ++ s.fcfs_queue

/-- The task that `modify_task` writes back for `t`. -/
def rewritten (id : Int) (new_command : String) (t : Task) : Task :=
  if t.id = id then { t with command := new_command } else t

/-- Whether some queued task carries `id`. -/
def queued (id : Int) (s : Store) : Prop := ∃ t ∈ s.rr_queue ++ s.fcfs_queue, t.id = id

instance (id : Int) (s : Store) : Decidable (queued id s) := by
  unfold queued; infer_instance

/-- The tasks handed to `execute_task` according to a record of events, in
order: those called on the calling thread and those given to a thread. -/
def executed : List Event → List Task
  | [] => []
  | Event.call t :: ev => t :: executed ev
  | Event.spawn t :: ev => t :: executed ev
  | Event.join _ :: ev => executed ev

/-- One iteration of the loop of `round_robin_schedule` seen from outside: the
complete call `execute_task(t)`, then its record. -/
def call_task {W : Type} (run_jam_script : String → W → Int × W) (e : Effects W) (t : Task) :
    Effects W :=
  { execute_task run_jam_script t e with
    events := (execute_task run_jam_script t e).events ++ [Event.call t] }

/-- A run of `jschedule_command` calls whose files all exist, given as
(filename, priority) pairs, from left to right. -/
def schedule_all : List (String × Int) → Store → Store
  | [], s => s
  | a :: rest, s => schedule_all rest (jschedule_command a.1 a.2 true s).1

/-- The tasks that successive successful `jschedule_command` calls create when
the counter starts at `c`, in the order of the calls. -/
def created_tasks : Int → List (String × Int) → List Task
  | _, [] => []
  | c, a :: rest => ⟨c, a.1, a.2⟩ :: created_tasks (wrapInt (c + 1)) rest

/-- The line `print_scheduled_tasks` writes for a task. -/
def print_line (t : Task) : String := "[" ++ toString t.id ++ "] " ++ t.command ++ "\n"

/-- The line `save_queues_to_file` writes for a task. -/
def save_line (t : Task) : String :=
  toString t.id ++ "," ++ toString t.priority ++ "," ++ t.command ++ "\n"

/-- Concatenation of pieces of text, in order. -/
def concat_text : List String → String
  | [] => ""
  | x :: xs => x ++ concat_text xs

/-- A script interpreter that records the paths it is called with, in call
order, and answers with the exit code `code` gives for the path. -/
def recording_interpreter (code : String → Int) : String → List String → Int × List String :=
  fun path calls => (code path, calls ++ [path])

/-- Spec reading of `Cancel(id)`: remove the first task whose id matches,
scanning the high queue and then the low queue, and nothing else. -/
def cancel_first_spec (id : Int) (s : Store) : Store :=
  match s.rr_queue.find? (fun t => decide (t.id = id)) with
  | some t => { s with rr_queue := s.rr_queue.erase t }
  | none =>
      match s.fcfs_queue.find? (fun t => decide (t.id = id)) with
      | some t => { s with fcfs_queue := s.fcfs_queue.erase t }
      | none => s

/-- What holds of a store after `k` successful `jschedule_command` calls: the
counter is the wrapped `1 + k`, queued ids are pairwise distinct, and each is
the id of one of those `k` calls. -/
def counter_invariant (k : Nat) (s : Store) : Prop :=
  s.task_id_counter = wrapInt (1 + (k : Int)) ∧
    ((snapshot s).map Task.id).Nodup ∧
    ∀ x ∈ (snapshot s).map Task.id, ∃ j : Nat, j < k ∧ x = wrapInt (1 + (j : Int))

/-- The paths the interpreter is called with when `execute_task` runs on each
task of a list once, in order: the C string of every non-empty command. -/
def script_paths (l : List Task) : List String :=
  (l.filter (fun t => decide (t.command ≠ ""))).map (fun t => c_str t.command)

/-! ## Pipeline executor (`shell.cpp`, `handle_redirection_and_execute`)

`vector<char *>` is a `List (Option String)`: `none` is `nullptr`, `some a` a C
string. What a process does is the list of its system and library calls in
program order and the way it ends. `fork` and `pipe` are taken to succeed; the
answers of `open` and `execvp` are given by the environment. -/

/-- The flag sets `handle_redirection_and_execute` passes to `open`. -/
inductive OpenFlags where
  | wronly_creat_trunc
  | wronly_creat_append
  | rdonly
deriving DecidableEq, Repr

/-- A system or library call, with the arguments it receives. -/
inductive Call where
  | c_pipe
  | c_fork
  | c_wait
  | c_dup2 (oldfd newfd : Int)
  | c_close (fd : Int)
  | c_open (path : Option String) (flags : OpenFlags) (mode : Option Nat)
  | c_execvp (file : Option String) (argv : List String)
  | c_perror (s : String)
  | c_exit (status : Int)
deriving DecidableEq, Repr

/-- How the run of a piece of code ends for the process executing it: it
returns to its caller, the process image is replaced by a successful `execvp`,
the process exits, or it reads a null pointer or past the end of a vector. -/
inductive Ending where
  | returned
  | replaced
  | exited (status : Int)
  | fault
deriving DecidableEq, Repr

/-- Calls and ending of one process. -/
structure Proc where
  calls : List Call
  ending : Ending
deriving DecidableEq, Repr

/-- Result of one `handle_redirection_and_execute`: what the calling process
(the shell) does and what each forked child does, in fork order. -/
structure Launch where
  shell : Proc
  children : List Proc
deriving DecidableEq, Repr

/-- Answers of the operating system: the value `open` returns (negative on
failure), the two descriptors `pipe` stores, and whether `execvp` finds and
starts the named program. -/
structure Env where
  open_ret : Option String → OpenFlags → Int
  pipe_read : Int
  pipe_write : Int
  exec_ok : String → Bool

/-- The redirection operators. -/
inductive Redirect where
  | out_trunc
  | out_append
  | input
deriving DecidableEq, Repr

/-- Where the scanning loop of `handle_redirection_and_execute` stops. -/
inductive Scan where
  | fault
  | pipe (i : Nat)
  | redirect (i : Nat) (r : Redirect)
  | finished
deriving DecidableEq, Repr

/-- The loop `for (i = 0; i < args.size(); ++i)` with its `strcmp` chain, from
index `i` on the remaining elements: the first operator decides; `strcmp` on a
null pointer is a fault; without operator the loop runs to the end. -/
def scan : List (Option String) → Nat → Scan
  | [], _ => Scan.finished
  | none :: _, _ => Scan.fault
  | some a :: rest, i =>
      if a = "|" then Scan.pipe i
      else if a = ">" then Scan.redirect i Redirect.out_trunc
      else if a = ">>" then Scan.redirect i Redirect.out_append
      else if a = "<" then Scan.redirect i Redirect.input
      else scan rest (i + 1)

/-- The argument vector `execvp` reads from `args.data()`: the strings before
the first null pointer; `none` when there is no null pointer in the vector. -/
def c_argv : List (Option String) → Option (List String)
  | [] => none
  | none :: _ => some []
  | some a :: rest => (c_argv rest).map (fun l => a :: l)

/-- The statements `execvp(args[0], args.data()); perror("execvp"); exit(1);`.
With a null `args[0]` the process enters `execvp(NULL, ...)` and dies there (the
library reads through the null pointer): the call is its last one and the
ending is a fault, with no `perror` and no `exit`. -/
def exec_tail (env : Env) (args : List (Option String)) : List Call × Ending :=
  match args with
  | [] => ([], Ending.fault)
  | none :: _ => ([Call.c_execvp none []], Ending.fault)
  | some f :: _ =>
      match c_argv args with
      | none => ([], Ending.fault)
      | some argv =>
          if env.exec_ok f then ([Call.c_execvp (some f) argv], Ending.replaced)
          else
            ([Call.c_execvp (some f) argv, Call.c_perror "execvp", Call.c_exit 1],
              Ending.exited 1)

/-- Lines 257-272: `fork`; the child rebinds its streams when `in_fd != 0` or
`out_fd != 1` and runs `execvp`; the parent waits unless `background`.
`pre` holds the calls the shell made before. -/
def launch (env : Env) (pre : List Call) (in_fd out_fd : Int) (args : List (Option String))
    (background : Bool) : Launch :=
  let t := exec_tail env args
  let child : Proc :=
    ⟨(if in_fd ≠ 0 then [Call.c_dup2 in_fd 0] else [])
        ++ (if out_fd ≠ 1 then [Call.c_dup2 out_fd 1] else []) ++ t.1, t.2⟩
  ⟨⟨pre ++ [Call.c_fork] ++ (if background then [] else [Call.c_wait]), Ending.returned⟩, [child]⟩

/-- Flags and mode argument of the `open` call of a redirection operator
(`0644` is 420). -/
def open_args : Redirect → OpenFlags × Option Nat
  | Redirect.out_trunc => (OpenFlags.wronly_creat_trunc, some 420)
  | Redirect.out_append => (OpenFlags.wronly_creat_append, some 420)
  | Redirect.input => (OpenFlags.rdonly, none)

/-- Function `handle_redirection_and_execute` (`shell.cpp` lines 201-273). -/
def handle_redirection_and_execute (env : Env) (args : List (Option String))
    (background : Bool) : Launch :=
  match scan args 0 with
  | Scan.fault => ⟨⟨[], Ending.fault⟩, []⟩
  | Scan.pipe i =>
      let args1 := args.set i none
      let ct := exec_tail env args1
      let child : Proc :=
        ⟨[Call.c_dup2 env.pipe_write 1, Call.c_close env.pipe_read] ++ ct.1, ct.2⟩
      let rightCmd := args.drop (i + 1) ++ [none]
      let st := exec_tail env rightCmd
      ⟨⟨[Call.c_pipe, Call.c_fork, Call.c_wait, Call.c_dup2 env.pipe_read 0,
          Call.c_close env.pipe_write] ++ st.1, st.2⟩, [child]⟩
  | Scan.redirect i r =>
      match args[i + 1]? with
      | none => ⟨⟨[], Ending.fault⟩, []⟩
      | some path =>
          let fd := env.open_ret path (open_args r).1
          let in_fd : Int := if r = Redirect.input then fd else 0
          let out_fd : Int := if r = Redirect.input then 1 else fd
          let args1 := args.set i none
          launch env [Call.c_open path (open_args r).1 (open_args r).2] in_fd out_fd args1
            background
  | Scan.finished => launch env [] 0 1 args background

/-- Effect of one call on the descriptor whose open file a process has at
`target`: a `dup2` onto `target` from a non-negative descriptor puts that one
there (`dup2` from a negative descriptor fails and changes nothing). -/
def descriptor_step (target : Int) (cur : Int) : Call → Int
  | Call.c_dup2 oldfd newfd => if newfd = target ∧ 0 ≤ oldfd then oldfd else cur
  | _ => cur

/-- The descriptor whose open file a process has at `target` after its calls:
`target` itself as inherited, or the last one a `dup2` put there. -/
def descriptor_at (target : Int) (calls : List Call) : Int :=
  calls.foldl (descriptor_step target) target

/-- The operator tokens of the pipeline executor. -/
def is_operator (a : String) : Bool :=
  decide (a = "|") || decide (a = ">") || decide (a = ">>") || decide (a = "<")

/-! ## Dispatch of one input line (`shell.cpp`, `run_shell_loop`, lines 338-487)

A line is the C string in `input[MAX_INPUT]` once `fgets` has filled it and the
newline is cut; a character stands for one byte. The alias table, `getenv` and
the answer of `command -v` are parameters. -/

/-- Size of the line buffer, `#define MAX_INPUT 1024`. -/
def MAX_INPUT : Nat := 1024

/-- White space skipped by `ss >> token` (`isspace` in the "C" locale). -/
def is_space (c : Char) : Bool :=
  decide (c = ' ') || decide (c = '\t') || decide (c = '\n') || decide (c = Char.ofNat 11)
    || decide (c = Char.ofNat 12) || decide (c = '\r')

/-- The words `while (ss >> token)` reads: the maximal runs of characters that
are not white space, in order; `cur` is the run being read. -/
def split_words : List Char → List Char → List (List Char)
  | [], cur => if cur.isEmpty then [] else [cur]
  | c :: cs, cur =>
      if is_space c then
        (if cur.isEmpty then split_words cs [] else cur :: split_words cs [])
      else split_words cs (cur ++ [c])

/-- The string one `ss >> token` reads from the start of a line: the first
word, or the empty string when the line holds white space only. -/
def first_word (cs : List Char) : List Char :=
  (cs.dropWhile is_space).takeWhile (fun c => !is_space c)

/-- Function `apply_aliases` (lines 281-292): when the first word is an alias,
the first `token.length()` characters of the line are replaced by its value
and the result is copied back with `strncpy(input, ..., MAX_INPUT)`. `none`: the
result does not fit, the buffer is left without terminator. -/
def apply_aliases (aliases : String → Option String) (input : String) : Option String :=
  let token := first_word input.data
  match aliases (String.mk token) with
  | none => some input
  | some value =>
      let cmd := value.data ++ input.data.drop token.length
      if cmd.length < MAX_INPUT then some (String.mk cmd) else none

/-- The text `expand_env_variables` appends for one word: the value of the
variable (nothing when it is not set) for a word that starts with `$`, the
word itself otherwise. -/
def expand_word (getenv : String → Option String) : List Char → List Char
  | '$' :: name =>
      match getenv (String.mk name) with
      | some value => value.data
      | none => []
  | w => w

/-- Function `expand_env_variables` (lines 298-316): every word, expanded,
followed by one space, copied back with `strcpy`. `none`: the result does not
fit the buffer. -/
def expand_env_variables (getenv : String → Option String) (input : String) : Option String :=
  let result := (split_words input.data []).foldl
    (fun acc w => acc ++ expand_word getenv w ++ [' ']) []
  if result.length < MAX_INPUT then some (String.mk result) else none

/-- The `strtok(input, " ")` loop without its bound: the maximal runs of
characters other than the space, in order; `cur` is the run being read. -/
def split_spaces : List Char → List Char → List (List Char)
  | [], cur => if cur.isEmpty then [] else [cur]
  | c :: cs, cur =>
      if c = ' ' then
        (if cur.isEmpty then split_spaces cs [] else cur :: split_spaces cs [])
      else split_spaces cs (cur ++ [c])

/-- The C string at `input` once `strtok` has cut the buffer after the first
token: the leading spaces and the first token. -/
def c_input (input : String) : String :=
  String.mk (input.toList.takeWhile (fun c => c = ' ')
    ++ (input.toList.dropWhile (fun c => c = ' ')).takeWhile (fun c => c ≠ ' '))

/-- The names the `strcmp` chain of `run_shell_loop` tests `tokens[0]` against. -/
def builtin_names : List String :=
  ["sgown", "help", "locate", "jcreate", "jsave", "jedit", "jmodify", "jexecute", "jrename",
    "cd", "history", "jschedule", "jschedulexecute", "alias", "jscheduleview", "jschedulesave",
    "jschedulecancel", "jschedulemodify"]

/-- The `if` / `else if` chain of lines 364-465: the built-in branch taken for
first token `t0` and `token_count = n`, or `none` when every test fails. -/
def builtin_branch (t0 : String) (n : Nat) : Option String :=
  if t0 = "sgown" ∧ n > 1 then some "sgown"
  else if t0 = "help" then some "help"
  else if t0 = "locate" ∧ n > 1 then some "locate"
  else if t0 = "jcreate" ∧ n > 1 then some "jcreate"
  else if t0 = "jsave" ∧ n > 1 then some "jsave"
  else if t0 = "jedit" ∧ n > 1 then some "jedit"
  else if t0 = "jmodify" ∧ n > 1 then some "jmodify"
  else if t0 = "jexecute" ∧ n > 1 then some "jexecute"
  else if t0 = "jrename" ∧ n > 2 then some "jrename"
  else if t0 = "cd" ∧ n > 1 then some "cd"
  else if t0 = "history" then some "history"
  else if t0 = "jschedule" then some "jschedule"
  else if t0 = "jschedulexecute" then some "jschedulexecute"
  else if t0 = "alias" ∧ n > 1 then some "alias"
  else if t0 = "jscheduleview" then some "jscheduleview"
  else if t0 = "jschedulesave" ∧ n > 1 then some "jschedulesave"
  else if t0 = "jschedulecancel" ∧ n > 1 then some "jschedulecancel"
  else if t0 = "jschedulemodify" ∧ n > 2 then some "jschedulemodify"
  else none

/-- Lines 472-485: copy the tokens, drop a last `&` and set `background`, push
the null terminator. -/
def pipeline_args (tokens : List String) : List (Option String) × Bool :=
  if tokens.getLast? = some "&" then (tokens.dropLast.map some ++ [none], true)
  else (tokens.map some ++ [none], false)

/-- What `run_shell_loop` does with one line: `skip` is `continue`, `leave`
is `break` (the loop is left), `overflow` a write or read past the end of
`input` or `tokens`, the others name the handler called. -/
inductive Dispatch where
  | skip
  | leave
  | overflow
  | builtin (name : String)
  | shell_command (input : String)
  | pipeline (args : List (Option String)) (background : Bool)
deriving DecidableEq, Repr

/-- The loop body of `run_shell_loop` from the tokenization on (lines 350-487);
`input` is the buffer after both expansions. `is_shell_command` is the answer
of `command -v` for the string it is given. With 64 tokens or more the store
`tokens[token_count] = NULL` falls outside `tokens[64]` (`overflow`). -/
def dispatch_tokens (is_shell_command : String → Bool) (input : String) : Dispatch :=
  let pieces := split_spaces input.toList []
  if 64 ≤ pieces.length then Dispatch.overflow
  else
    let tokens := pieces.map String.mk
    match tokens with
    | [] => Dispatch.skip
    | t0 :: _ =>
        match builtin_branch t0 tokens.length with
        | some name => Dispatch.builtin name
        | none =>
            if is_shell_command (c_input input) then Dispatch.shell_command (c_input input)
            else Dispatch.pipeline (pipeline_args tokens).1 (pipeline_args tokens).2

/-- One pass of the loop body of `run_shell_loop` on a line read by `fgets`
(lines 338-487): an empty line is skipped, a line whose first four characters
are `exit` leaves the loop (`strncmp(input, "exit", 4) == 0`), any other line is
alias-expanded, environment-expanded, tokenized and dispatched. -/
def dispatch (aliases : String → Option String) (getenv : String → Option String)
    (is_shell_command : String → Bool) (line : String) : Dispatch :=
  if line = "" then Dispatch.skip
  else if line.data.take 4 = ['e', 'x', 'i', 't'] then Dispatch.leave
  else
    match apply_aliases aliases line with
    | none => Dispatch.overflow
    | some aliased =>
        match expand_env_variables getenv aliased with
        | none => Dispatch.overflow
        | some input => dispatch_tokens is_shell_command input

/-- The token of a redirection operator. -/
def redirect_token : Redirect → String
  | Redirect.out_trunc => ">"
  | Redirect.out_append => ">>"
  | Redirect.input => "<"

/-- The standard stream a redirection operator rebinds: 0 for `<`, 1 for `>`
and `>>`. -/
def redirect_target : Redirect → Int
  | Redirect.input => 0
  | _ => 1

/-- The `dup2` calls of the child of `launch` for a redirection whose `open`
returned `fd`. -/
def redirect_dups (r : Redirect) (fd : Int) : List Call :=
  if r = Redirect.input then (if fd ≠ 0 then [Call.c_dup2 fd 0] else [])
  else (if fd ≠ 1 then [Call.c_dup2 fd 1] else [])

/-- The calls and ending of `execvp(args[0], args.data()); perror; exit(1)` when
the vector holds the strings `argv` before its first null pointer. -/
def exec_of (env : Env) (argv : List String) : List Call × Ending :=
  match argv with
  | [] => ([Call.c_execvp none []], Ending.fault)
  | f :: _ =>
      if env.exec_ok f then ([Call.c_execvp (some f) argv], Ending.replaced)
      else
        ([Call.c_execvp (some f) argv, Call.c_perror "execvp", Call.c_exit 1], Ending.exited 1)

/-! ## Reading the saved text back -/

/-- Value of a decimal digit character. -/
def digit_value (c : Char) : Nat := c.toNat - 48

/-- Value of a string of decimal digits, most significant first. -/
def decimal_value (cs : List Char) : Nat :=
  cs.foldl (fun acc c => 10 * acc + digit_value c) 0

/-- The characters of the line `save_queues_to_file` writes for a task. -/
def line_chars (t : Task) : List Char :=
  (toString t.id).data ++ ',' :: ((toString t.priority).data ++ ',' :: (t.command.data ++ ['\n']))

/-- The characters `save_queues_to_file` writes for a sequence of tasks. -/
def text_chars : List Task → List Char
  | [] => []
  | t :: ts => line_chars t ++ text_chars ts

/-! ## Loop lemmas -/

theorem cancel_loop_eq (id : Int) (queue temp : List Task) :
    cancel_loop id queue temp = temp ++ queue.filter (fun t => decide (t.id ≠ id)) := by
  induction queue generalizing temp with
  | nil => simp [cancel_loop]
  | cons t queue ih =>
      by_cases h : t.id = id
      · simp [cancel_loop, h, ih]
      · simp [cancel_loop, h, ih]

theorem modify_loop_eq (id : Int) (c : String) (queue temp : List Task) :
    modify_loop id c queue temp = temp ++ queue.map (rewritten id c) := by
  induction queue generalizing temp with
  | nil => simp [modify_loop]
  | cons t queue ih => simp [modify_loop, ih, rewritten]

theorem cancel_task_store (id : Int) (s : Store) :
    (cancel_task id s).1 =
      ⟨s.rr_queue.filter (fun t => decide (t.id ≠ id)),
        s.fcfs_queue.filter (fun t => decide (t.id ≠ id)), s.task_id_counter⟩ := by
  simp [cancel_task, cancel_loop_eq]

theorem modify_task_store (id : Int) (c : String) (s : Store) :
    (modify_task id c s).1 =
      ⟨s.rr_queue.map (rewritten id c), s.fcfs_queue.map (rewritten id c), s.task_id_counter⟩ := by
  simp [modify_task, modify_loop_eq]

theorem filter_miss (id : Int) (l : List Task) (h : ∀ t ∈ l, t.id ≠ id) :
    l.filter (fun t => decide (t.id ≠ id)) = l := by
  rw [List.filter_eq_self]
  intro t ht
  simpa using h t ht

theorem map_rewritten_miss (id : Int) (c : String) (l : List Task) (h : ∀ t ∈ l, t.id ≠ id) :
    l.map (rewritten id c) = l := by
  induction l with
  | nil => rfl
  | cons t l ih =>
      have h1 : t.id ≠ id := h t (by simp)
      have h2 : ∀ u ∈ l, u.id ≠ id := fun u hu => h u (by simp [hu])
      simp [rewritten, h1, ih h2]

/-- In a list whose ids are pairwise distinct, dropping the tasks with the id
of a member `t` is erasing `t`. -/
theorem filter_id_eq_erase (l : List Task) (t : Task) (hn : (l.map Task.id).Nodup)
    (ht : t ∈ l) : l.filter (fun u => decide (u.id ≠ t.id)) = l.erase t := by
  have hl : l.Nodup := List.Nodup.of_map _ hn
  rw [List.Nodup.erase_eq_filter hl]
  apply List.filter_congr
  intro u hu
  have hinj := List.inj_on_of_nodup_map hn
  by_cases hut : u = t
  · simp [hut]
  · have : u.id ≠ t.id := fun h => hut (hinj hu ht h)
    simp [this, hut]

/-- Dropping the tasks with an id that does not occur changes nothing, also
written as an erase. -/
theorem filter_id_eq_erase_of_not_mem (l : List Task) (t : Task)
    (h : ∀ u ∈ l, u.id ≠ t.id) : l.filter (fun u => decide (u.id ≠ t.id)) = l.erase t := by
  rw [filter_miss t.id l h, List.erase_of_not_mem]
  intro ht
  exact h t ht rfl

/-- Lemma `filter_id_eq_erase` for a part `l` of a list `L` with distinct ids. -/
theorem filter_id_eq_erase_sub (L l : List Task) (t : Task) (hn : (L.map Task.id).Nodup)
    (hs : l.Sublist L) (ht : t ∈ L) :
    l.filter (fun u => decide (u.id ≠ t.id)) = l.erase t := by
  by_cases hl : t ∈ l
  · exact filter_id_eq_erase l t (List.Nodup.sublist (List.Sublist.map _ hs) hn) hl
  · apply filter_id_eq_erase_of_not_mem
    intro u hu hid
    have : u = t := List.inj_on_of_nodup_map hn (hs.subset hu) ht hid
    exact hl (this ▸ hu)

theorem execute_task_events {W : Type} (run_jam_script : String → W → Int × W)
    (t : Task) (e : Effects W) : (execute_task run_jam_script t e).events = e.events := by
  unfold execute_task execute_jam_script
  by_cases h : t.command = ""
  · simp [h]
  · by_cases h2 : (run_jam_script (c_str t.command) e.world).1 = 0
    · simp [h, h2]
    · simp [h, h2]

theorem round_robin_loop_eq {W : Type} (run_jam_script : String → W → Int × W)
    (queue : List Task) (e : Effects W) :
    round_robin_loop run_jam_script queue e
      = ([], queue.foldl (call_task run_jam_script) e) := by
  induction queue generalizing e with
  | nil => rfl
  | cons t queue ih =>
      rw [round_robin_loop, ih]
      rfl

theorem fcfs_loop_eq (queue threads : List Task) (ev : List Event) :
    fcfs_loop queue threads ev = ([], threads ++ queue, ev ++ queue.map Event.spawn) := by
  induction queue generalizing threads ev with
  | nil => simp [fcfs_loop]
  | cons t queue ih => simp [fcfs_loop, ih]

theorem join_loop_events {W : Type} (run_jam_script : String → W → Int × W)
    (threads : List Task) (e : Effects W) :
    (join_loop run_jam_script threads e).events = e.events ++ threads.map Event.join := by
  induction threads generalizing e with
  | nil => simp [join_loop]
  | cons t threads ih => simp [join_loop, ih, execute_task_events]

theorem executed_append (a b : List Event) : executed (a ++ b) = executed a ++ executed b := by
  induction a with
  | nil => rfl
  | cons x a ih => cases x <;> simp [executed, ih]

theorem executed_spawn (l : List Task) : executed (l.map Event.spawn) = l := by
  induction l with
  | nil => rfl
  | cons t l ih => simp [executed, ih]

theorem executed_join (l : List Task) : executed (l.map Event.join) = [] := by
  induction l with
  | nil => rfl
  | cons t l ih => simp [executed, ih]

theorem multi_level_schedule_store {W : Type} (run_jam_script : String → W → Int × W)
    (s : Store) (e : Effects W) :
    (multi_level_schedule run_jam_script s e).1 = ⟨[], [], s.task_id_counter⟩ := by
  simp [multi_level_schedule, fcfs_schedule, round_robin_schedule, round_robin_loop_eq,
    fcfs_loop_eq]

theorem print_loop_eq (temp : List Task) (out : String) :
    print_loop temp out = out ++ concat_text (temp.map print_line) := by
  induction temp generalizing out with
  | nil => simp [print_loop, concat_text]
  | cons t temp ih =>
      simp [print_loop, ih, concat_text, print_line, String.append_assoc]

theorem save_loop_eq (temp : List Task) (out : String) :
    save_loop temp out = out ++ concat_text (temp.map save_line) := by
  induction temp generalizing out with
  | nil => simp [save_loop, concat_text]
  | cons t temp ih =>
      simp [save_loop, ih, concat_text, save_line, String.append_assoc]

theorem concat_text_append (a b : List String) :
    concat_text (a ++ b) = concat_text a ++ concat_text b := by
  induction a with
  | nil => simp [concat_text]
  | cons x a ih => simp [concat_text, ih, String.append_assoc]

theorem print_scheduled_tasks_eq (s : Store) :
    print_scheduled_tasks s
      = (s, ⟨"Scheduled Tasks (RR - High Priority):\n"
              ++ concat_text (s.rr_queue.map print_line)
              ++ "\nScheduled Tasks (FCFS - Low Priority):\n"
              ++ concat_text (s.fcfs_queue.map print_line), ""⟩) := by
  simp [print_scheduled_tasks, print_loop_eq]

theorem save_queues_to_file_eq (writable : Bool) (s : Store) :
    save_queues_to_file writable s
      = (s, if writable then some (concat_text ((snapshot s).map save_line)) else none) := by
  simp [save_queues_to_file, save_loop_eq, snapshot, concat_text_append]

theorem schedule_all_eq (adds : List (String × Int)) (s : Store)
    (h : ∀ a ∈ adds, c_str a.1 ≠ "") :
    (schedule_all adds s).rr_queue
        = s.rr_queue ++ (created_tasks s.task_id_counter adds).filter
            (fun t => decide (t.priority = 1)) ∧
      (schedule_all adds s).fcfs_queue
        = s.fcfs_queue ++ (created_tasks s.task_id_counter adds).filter
            (fun t => decide (t.priority ≠ 1)) := by
  induction adds generalizing s with
  | nil => simp [schedule_all, created_tasks]
  | cons a rest ih =>
      have ha : c_str a.1 ≠ "" := h a (by simp)
      have hr : ∀ b ∈ rest, c_str b.1 ≠ "" := fun b hb => h b (by simp [hb])
      have hopen : ifstream_is_open true a.1 = true := by simp [ifstream_is_open, ha]
      have hs : (jschedule_command a.1 a.2 true s).1
          = add_task s.task_id_counter a.1 a.2
              { s with task_id_counter := wrapInt (s.task_id_counter + 1) } := by
        simp [jschedule_command, hopen]
      rw [schedule_all, hs]
      have := ih (add_task s.task_id_counter a.1 a.2
        { s with task_id_counter := wrapInt (s.task_id_counter + 1) }) hr
      by_cases hp : a.2 = 1
      · simp [add_task, hp] at this ⊢
        simp [this, created_tasks, hp]
      · simp [add_task, hp] at this ⊢
        simp [this, created_tasks, hp]

theorem created_tasks_inputs (c : Int) (adds : List (String × Int)) :
    (created_tasks c adds).map (fun t => (t.command, t.priority)) = adds := by
  induction adds generalizing c with
  | nil => rfl
  | cons a rest ih => simp [created_tasks, ih]

theorem created_tasks_ids (adds : List (String × Int)) (c : Int)
    (h : adds = [] ∨ (-2147483648 ≤ c ∧ c + adds.length ≤ 2147483648)) :
    (created_tasks c adds).map Task.id = (List.range adds.length).map (fun (i : Nat) => c + (i : Int)) := by
  induction adds generalizing c with
  | nil => rfl
  | cons a rest ih =>
      have hc : -2147483648 ≤ c ∧ c + ((rest.length : Int) + 1) ≤ 2147483648 := by
        rcases h with h | h
        · exact absurd h (by simp)
        · simpa using h
      have hrest : rest = [] ∨
          (-2147483648 ≤ wrapInt (c + 1) ∧ wrapInt (c + 1) + rest.length ≤ 2147483648) := by
        cases rest with
        | nil => exact Or.inl rfl
        | cons b rest2 =>
            right
            have h2 : c + ((rest2.length : Int) + 1 + 1) ≤ 2147483648 := by simpa using hc.2
            have : wrapInt (c + 1) = c + 1 := by unfold wrapInt; omega
            rw [this]
            simp only [List.length_cons, Nat.cast_add, Nat.cast_one]
            omega
      rw [created_tasks, List.map_cons, ih _ hrest, List.length_cons, List.range_succ_eq_map,
        List.map_cons, List.map_map]
      simp only [Nat.cast_zero, add_zero, List.cons.injEq, true_and]
      apply List.map_congr_left
      intro i hi
      have hi2 : i < rest.length := List.mem_range.1 hi
      have : wrapInt (c + 1) = c + 1 := by
        have : (i : Int) < rest.length := by exact_mod_cast hi2
        unfold wrapInt; omega
      simp only [Function.comp, Nat.cast_succ, this]
      ring

theorem step_add_open {W : Type} (run_jam_script : String → W → Int × W) (s : Store)
    (e : Effects W) (f : String) (p : Int) (r : Bool) (h : ifstream_is_open r f = true) :
    (step run_jam_script s e (Op.add f p r)).1.task_id_counter = wrapInt (s.task_id_counter + 1) ∧
      (step run_jam_script s e (Op.add f p r)).2.2 = some s.task_id_counter := by
  by_cases hp : p = 1 <;> simp [step, jschedule_command, h, add_task, hp]

theorem step_add_closed {W : Type} (run_jam_script : String → W → Int × W) (s : Store)
    (e : Effects W) (f : String) (p : Int) (r : Bool) (h : ifstream_is_open r f = false) :
    (step run_jam_script s e (Op.add f p r)).1 = s ∧
      (step run_jam_script s e (Op.add f p r)).2.2 = none := by
  simp [step, jschedule_command, h]

theorem step_other {W : Type} (run_jam_script : String → W → Int × W) (s : Store)
    (e : Effects W) (op : Op) (h : ∀ f p r, op ≠ Op.add f p r) :
    (step run_jam_script s e op).1.task_id_counter = s.task_id_counter ∧
      (step run_jam_script s e op).2.2 = none := by
  cases op with
  | add f p r => exact absurd rfl (h f p r)
  | cancel id => simp [step, cancel_task_store]
  | modify id c => simp [step, modify_task_store]
  | print => simp [step, print_scheduled_tasks]
  | save w => simp [step, save_queues_to_file]
  | schedule => simp [step, multi_level_schedule_store]

theorem successfulAdds_other (op : Op) (ops : List Op) (h : ∀ f p r, op ≠ Op.add f p r) :
    successfulAdds (op :: ops) = successfulAdds ops := by
  cases op with
  | add f p r => exact absurd rfl (h f p r)
  | cancel id => rfl
  | modify id c => rfl
  | print => rfl
  | save w => rfl
  | schedule => rfl

/-- Ids handed out and final counter of a run, as long as the 32-bit counter
has not wrapped before the last successful `jschedule_command`. -/
theorem run_ids {W : Type} (run_jam_script : String → W → Int × W) (ops : List Op) :
    ∀ (s : Store) (e : Effects W) (acc : List Int),
      (successfulAdds ops = 0 ∨
        (1 ≤ s.task_id_counter ∧ s.task_id_counter + successfulAdds ops ≤ 2147483648)) →
      (run run_jam_script ops s e acc).2.2
          = acc ++ (List.range (successfulAdds ops)).map
              (fun (i : Nat) => s.task_id_counter + (i : Int)) ∧
        (run run_jam_script ops s e acc).1.task_id_counter
          = if successfulAdds ops = 0 then s.task_id_counter
            else wrapInt (s.task_id_counter + successfulAdds ops) := by
  induction ops with
  | nil => intro s e acc _; simp [run, successfulAdds]
  | cons op ops ih =>
      intro s e acc h
      by_cases hop : ∃ f p r, op = Op.add f p r ∧ ifstream_is_open r f = true
      · obtain ⟨f, p, r, rfl, hopen⟩ := hop
        have hk : successfulAdds (Op.add f p r :: ops) = successfulAdds ops + 1 := by
          simp [successfulAdds, hopen, Nat.add_comm]
        obtain ⟨hc, hid⟩ := step_add_open run_jam_script s e f p r hopen
        rw [hk] at h ⊢
        have hb : 1 ≤ s.task_id_counter ∧
            s.task_id_counter + ((successfulAdds ops : Int) + 1) ≤ 2147483648 := by
          rcases h with h | h
          · exact absurd h (by simp)
          · simpa using h
        have hnext : successfulAdds ops = 0 ∨
            (1 ≤ (step run_jam_script s e (Op.add f p r)).1.task_id_counter ∧
              (step run_jam_script s e (Op.add f p r)).1.task_id_counter + successfulAdds ops
                ≤ 2147483648) := by
          by_cases h0 : successfulAdds ops = 0
          · exact Or.inl h0
          · right
            have : (1 : Int) ≤ successfulAdds ops := by
              have : 1 ≤ successfulAdds ops := Nat.one_le_iff_ne_zero.2 h0
              exact_mod_cast this
            rw [hc]
            have : wrapInt (s.task_id_counter + 1) = s.task_id_counter + 1 := by
              unfold wrapInt; omega
            rw [this]
            omega
        have := ih (step run_jam_script s e (Op.add f p r)).1
          (step run_jam_script s e (Op.add f p r)).2.1
          (acc ++ (step run_jam_script s e (Op.add f p r)).2.2.toList) hnext
        rw [run]
        refine ⟨?_, ?_⟩
        · rw [this.1, hid, hc, List.range_succ_eq_map]
          simp only [Option.toList, List.append_assoc, List.singleton_append, List.map_cons,
            Nat.cast_zero, add_zero, List.map_map]
          congr 2
          apply List.map_congr_left
          intro i hi
          have hi2 : i < successfulAdds ops := List.mem_range.1 hi
          have hi3 : (i : Int) < successfulAdds ops := by exact_mod_cast hi2
          have : wrapInt (s.task_id_counter + 1) = s.task_id_counter + 1 := by
            unfold wrapInt; omega
          simp only [Function.comp, Nat.cast_succ, this]
          ring
        · rw [this.2, hc]
          by_cases h0 : successfulAdds ops = 0
          · simp [h0]
          · have h1 : (1 : Int) ≤ successfulAdds ops := by
              have : 1 ≤ successfulAdds ops := Nat.one_le_iff_ne_zero.2 h0
              exact_mod_cast this
            have : wrapInt (s.task_id_counter + 1) = s.task_id_counter + 1 := by
              unfold wrapInt; omega
            simp only [h0, if_false, this, Nat.succ_ne_zero, Nat.cast_add, Nat.cast_one]
            congr 1
            ring
      · have hstep : (step run_jam_script s e op).1.task_id_counter = s.task_id_counter ∧
            (step run_jam_script s e op).2.2 = none := by
          by_cases hadd : ∃ f p r, op = Op.add f p r
          · obtain ⟨f, p, r, rfl⟩ := hadd
            have hcl : ifstream_is_open r f = false := by
              cases hv : ifstream_is_open r f
              · rfl
              · exact absurd ⟨f, p, r, rfl, hv⟩ hop
            obtain ⟨h1, h2⟩ := step_add_closed run_jam_script s e f p r hcl
            exact ⟨by rw [h1], h2⟩
          · exact step_other run_jam_script s e op (fun f p r h => hadd ⟨f, p, r, h⟩)
        have hk : successfulAdds (op :: ops) = successfulAdds ops := by
          by_cases hadd : ∃ f p r, op = Op.add f p r
          · obtain ⟨f, p, r, rfl⟩ := hadd
            have hcl : ifstream_is_open r f = false := by
              cases hv : ifstream_is_open r f
              · rfl
              · exact absurd ⟨f, p, r, rfl, hv⟩ hop
            simp [successfulAdds, hcl]
          · exact successfulAdds_other op ops (fun f p r h => hadd ⟨f, p, r, h⟩)
        rw [hk] at h ⊢
        have := ih (step run_jam_script s e op).1 (step run_jam_script s e op).2.1
          (acc ++ (step run_jam_script s e op).2.2.toList) (by rw [hstep.1]; exact h)
        rw [run, this.1, this.2, hstep.1, hstep.2]
        simp

theorem run_append {W : Type} (run_jam_script : String → W → Int × W) (a b : List Op) :
    ∀ (s : Store) (e : Effects W) (acc : List Int),
      run run_jam_script (a ++ b) s e acc
        = run run_jam_script b (run run_jam_script a s e acc).1
            (run run_jam_script a s e acc).2.1 (run run_jam_script a s e acc).2.2 := by
  induction a with
  | nil => intro s e acc; rfl
  | cons op a ih =>
      intro s e acc
      rw [List.cons_append, run, run]
      exact ih _ _ _

theorem successfulAdds_replicate (n : Nat) :
    successfulAdds (List.replicate n (Op.add "a.script" 1 true)) = n := by
  induction n with
  | zero => rfl
  | succ n ih =>
      have h : ifstream_is_open true "a.script" = true := by decide
      rw [List.replicate_succ, successfulAdds, ih, h]
      simp [Nat.add_comm]

/-- Ids handed out by `m = n + 1` successful calls from the fresh store when `n`
is `INT_MAX`: the last call receives the wrapped counter, so the ids are not
increasing. -/
theorem run_wraps {W : Type} (run_jam_script : String → W → Int × W) (e : Effects W)
    (n m : Nat) (hn : (n : Int) = 2147483647) (hm : m = n + 1) :
    (run run_jam_script (List.replicate m (Op.add "a.script" 1 true)) Store.fresh e []).2.2
        = (List.range n).map (fun (i : Nat) => 1 + (i : Int)) ++ [-2147483648] ∧
      ¬ List.Pairwise (fun a b : Int => a < b)
        (run run_jam_script (List.replicate m (Op.add "a.script" 1 true)) Store.fresh e []).2.2 := by
  subst hm
  have hopen : ifstream_is_open true "a.script" = true := by decide
  have hk := successfulAdds_replicate n
  have hr := run_ids run_jam_script (List.replicate n (Op.add "a.script" 1 true))
    Store.fresh e [] (Or.inr (by
      rw [hk]
      refine ⟨by decide, ?_⟩
      show (1 : Int) + (n : Int) ≤ 2147483648
      omega))
  rw [hk] at hr
  have hn0 : n ≠ 0 := by
    intro h0
    rw [h0] at hn
    simp at hn
  have hcnt : (run run_jam_script (List.replicate n (Op.add "a.script" 1 true))
      Store.fresh e []).1.task_id_counter = -2147483648 := by
    rw [hr.2, if_neg hn0]
    show wrapInt ((1 : Int) + (n : Int)) = -2147483648
    unfold wrapInt
    omega
  have hids : (run run_jam_script (List.replicate (n + 1) (Op.add "a.script" 1 true))
      Store.fresh e []).2.2
      = (List.range n).map (fun (i : Nat) => 1 + (i : Int)) ++ [-2147483648] := by
    rw [List.replicate_succ', run_append, run, run]
    rw [(step_add_open run_jam_script _ _ "a.script" 1 true hopen).2, hr.1, hcnt]
    simp only [List.nil_append, Option.toList]
    rfl
  refine ⟨hids, ?_⟩
  rw [hids]
  intro hp
  have hmem : (1 : Int) ∈ (List.range n).map (fun (i : Nat) => 1 + (i : Int)) :=
    List.mem_map.2 ⟨0, List.mem_range.2 (Nat.pos_of_ne_zero hn0), by norm_num⟩
  have := (List.pairwise_append.1 hp).2.2 1 hmem (-2147483648) (List.mem_singleton.2 rfl)
  omega

theorem c_str_of_no_nul (s : String) (h : ∀ ch ∈ s.toList, ch ≠ Char.ofNat 0) : c_str s = s := by
  unfold c_str
  have : s.toList.takeWhile (fun ch => decide (ch ≠ Char.ofNat 0)) = s.toList := by
    rw [List.takeWhile_eq_self_iff]
    intro ch hch
    simpa using h ch hch
  rw [this]
  cases s
  rfl

theorem step_add_open_store {W : Type} (run_jam_script : String → W → Int × W) (s : Store)
    (e : Effects W) (f : String) (p : Int) (r : Bool) (h : ifstream_is_open r f = true) :
    (step run_jam_script s e (Op.add f p r)).1
      = add_task s.task_id_counter f p
          { s with task_id_counter := wrapInt (s.task_id_counter + 1) } := by
  simp [step, jschedule_command, h]

theorem map_id_rewritten (id : Int) (c : String) (l : List Task) :
    (l.map (rewritten id c)).map Task.id = l.map Task.id := by
  induction l with
  | nil => rfl
  | cons t l ih =>
      by_cases h : t.id = id
      · simp [rewritten, h, ih]
      · simp [rewritten, h, ih]

theorem counter_invariant_of_sublist (k : Nat) (s s1 : Store)
    (hc : s1.task_id_counter = s.task_id_counter)
    (hs : ((snapshot s1).map Task.id).Sublist ((snapshot s).map Task.id))
    (h : counter_invariant k s) : counter_invariant k s1 :=
  ⟨hc.trans h.1, List.Nodup.sublist hs h.2.1, fun x hx => h.2.2 x (hs.subset hx)⟩

theorem counter_invariant_add (k : Nat) (s : Store) (f : String) (p : Int)
    (hk : k < 4294967296) (h : counter_invariant k s) :
    counter_invariant (k + 1)
      (add_task s.task_id_counter f p
        { s with task_id_counter := wrapInt (s.task_id_counter + 1) }) := by
  obtain ⟨hc, hnd, hmem⟩ := h
  have hkz : (k : Int) < 4294967296 := by exact_mod_cast hk
  have hperm : List.Perm
      ((snapshot (add_task s.task_id_counter f p
        { s with task_id_counter := wrapInt (s.task_id_counter + 1) })).map Task.id)
      (s.task_id_counter :: (snapshot s).map Task.id) := by
    by_cases hp : p = 1
    · simp only [add_task, hp, if_true, snapshot, List.map_append, List.map_cons, List.map_nil,
        List.append_assoc, List.singleton_append]
      exact List.perm_middle
    · simp only [add_task, hp, if_false, snapshot, List.map_append, List.map_cons, List.map_nil]
      rw [← List.append_assoc]
      exact List.perm_append_singleton _ _
  have hnew : s.task_id_counter ∉ (snapshot s).map Task.id := by
    intro hin
    obtain ⟨j, hj, hx⟩ := hmem _ hin
    have hjz : (j : Int) < k := by exact_mod_cast hj
    rw [hc] at hx
    unfold wrapInt at hx
    omega
  refine ⟨?_, ?_, ?_⟩
  · have : (add_task s.task_id_counter f p
        { s with task_id_counter := wrapInt (s.task_id_counter + 1) }).task_id_counter
        = wrapInt (s.task_id_counter + 1) := by
      by_cases hp : p = 1 <;> simp [add_task, hp]
    rw [this, hc]
    unfold wrapInt
    push_cast
    omega
  · rw [hperm.nodup_iff]
    exact List.nodup_cons.2 ⟨hnew, hnd⟩
  · intro x hx
    rw [hperm.mem_iff, List.mem_cons] at hx
    rcases hx with hx | hx
    · exact ⟨k, Nat.lt_succ_self k, by rw [hx, hc]⟩
    · obtain ⟨j, hj, hxj⟩ := hmem x hx
      exact ⟨j, Nat.lt_succ_of_lt hj, hxj⟩

theorem counter_invariant_step {W : Type} (run_jam_script : String → W → Int × W) (s : Store)
    (e : Effects W) (op : Op) (k : Nat) (hk : k + successfulAdds [op] ≤ 4294967296)
    (h : counter_invariant k s) :
    counter_invariant (k + successfulAdds [op]) (step run_jam_script s e op).1 := by
  cases op with
  | add f p r =>
      cases hopen : ifstream_is_open r f
      · have h0 : successfulAdds [Op.add f p r] = 0 := by simp [successfulAdds, hopen]
        rw [h0, (step_add_closed run_jam_script s e f p r hopen).1]
        exact h
      · have h1 : successfulAdds [Op.add f p r] = 1 := by simp [successfulAdds, hopen]
        rw [h1] at hk ⊢
        rw [step_add_open_store run_jam_script s e f p r hopen]
        exact counter_invariant_add k s f p (by omega) h
  | cancel id =>
      apply counter_invariant_of_sublist k s _ _ _ h
      · simp [step, cancel_task_store]
      · simp only [step, cancel_task_store, snapshot]
        rw [← List.filter_append]
        exact List.Sublist.map _ (List.filter_sublist _)
  | modify id c =>
      apply counter_invariant_of_sublist k s _ _ _ h
      · simp [step, modify_task_store]
      · simp only [step, modify_task_store, snapshot]
        rw [← List.map_append, map_id_rewritten]
  | print => exact h
  | save w => exact h
  | schedule =>
      apply counter_invariant_of_sublist k s _ _ _ h
      · simp [step, multi_level_schedule_store]
      · simp [step, multi_level_schedule_store, snapshot]

theorem successfulAdds_cons (op : Op) (ops : List Op) :
    successfulAdds (op :: ops) = successfulAdds [op] + successfulAdds ops := by
  cases op <;> simp [successfulAdds]

theorem counter_invariant_run {W : Type} (run_jam_script : String → W → Int × W)
    (ops : List Op) :
    ∀ (s : Store) (e : Effects W) (acc : List Int) (k : Nat),
      k + successfulAdds ops ≤ 4294967296 → counter_invariant k s →
      counter_invariant (k + successfulAdds ops) (run run_jam_script ops s e acc).1 := by
  induction ops with
  | nil => intro s e acc k _ h; simpa [run, successfulAdds] using h
  | cons op ops ih =>
      intro s e acc k hk h
      rw [successfulAdds_cons] at hk ⊢
      rw [run, ← Nat.add_assoc]
      apply ih
      · omega
      · exact counter_invariant_step run_jam_script s e op k (by omega) h

theorem counter_invariant_fresh : counter_invariant 0 Store.fresh := by
  refine ⟨by decide, by simp [snapshot, Store.fresh], ?_⟩
  intro x hx
  simp [snapshot, Store.fresh] at hx

theorem run_adds_keeps_member {W : Type} (run_jam_script : String → W → Int × W) (n : Nat) :
    ∀ (s : Store) (e : Effects W) (acc : List Int) (t : Task), t ∈ s.rr_queue →
      t ∈ (run run_jam_script (List.replicate n (Op.add "a.script" 1 true)) s e acc).1.rr_queue := by
  induction n with
  | zero => intro s e acc t ht; exact ht
  | succ n ih =>
      intro s e acc t ht
      rw [List.replicate_succ, run]
      apply ih
      rw [step_add_open_store run_jam_script s e "a.script" 1 true (by decide)]
      simp [add_task, ht]

/-- Store after `n = INT_MAX` successful calls from the fresh store: the counter
has wrapped to `INT_MIN` while task 1 is still queued. -/
theorem run_adds_wrapped_counter {W : Type} (run_jam_script : String → W → Int × W)
    (e : Effects W) (n : Nat) (hn : (n : Int) = 2147483647) :
    (run run_jam_script (List.replicate n (Op.add "a.script" 1 true))
        Store.fresh e []).1.task_id_counter = -2147483648 ∧
      (⟨1, "a.script", 1⟩ : Task) ∈
        (run run_jam_script (List.replicate n (Op.add "a.script" 1 true))
          Store.fresh e []).1.rr_queue ∧
      ¬ (∀ t ∈ snapshot (run run_jam_script (List.replicate n (Op.add "a.script" 1 true))
          Store.fresh e []).1,
        t.id < (run run_jam_script (List.replicate n (Op.add "a.script" 1 true))
          Store.fresh e []).1.task_id_counter) := by
  have hk := successfulAdds_replicate n
  have hr := run_ids run_jam_script (List.replicate n (Op.add "a.script" 1 true))
    Store.fresh e [] (Or.inr (by
      rw [hk]
      refine ⟨by decide, ?_⟩
      show (1 : Int) + (n : Int) ≤ 2147483648
      omega))
  rw [hk] at hr
  have hn0 : n ≠ 0 := by
    intro h0
    rw [h0] at hn
    simp at hn
  have hcnt : (run run_jam_script (List.replicate n (Op.add "a.script" 1 true))
      Store.fresh e []).1.task_id_counter = -2147483648 := by
    rw [hr.2, if_neg hn0]
    show wrapInt ((1 : Int) + (n : Int)) = -2147483648
    unfold wrapInt
    omega
  have hmem : (⟨1, "a.script", 1⟩ : Task) ∈
      (run run_jam_script (List.replicate n (Op.add "a.script" 1 true))
        Store.fresh e []).1.rr_queue := by
    obtain ⟨m, hm⟩ := Nat.exists_eq_succ_of_ne_zero hn0
    rw [hm, List.replicate_succ, run]
    apply run_adds_keeps_member
    rw [step_add_open_store run_jam_script Store.fresh e "a.script" 1 true (by decide)]
    simp [add_task, Store.fresh]
  refine ⟨hcnt, hmem, ?_⟩
  intro hall
  have := hall ⟨1, "a.script", 1⟩ (List.mem_append_left _ hmem)
  rw [hcnt] at this
  simp at this

theorem scan_skip (pre : List String) (rest : List (Option String))
    (h : ∀ t ∈ pre, is_operator t = false) :
    ∀ i : Nat, scan (pre.map some ++ rest) i = scan rest (i + pre.length) := by
  induction pre with
  | nil => intro i; simp
  | cons a pre ih =>
      intro i
      have ha : is_operator a = false := h a (by simp)
      have hp : ∀ t ∈ pre, is_operator t = false := fun t ht => h t (by simp [ht])
      simp only [is_operator, Bool.or_eq_false_iff, decide_eq_false_iff_not] at ha
      obtain ⟨⟨⟨h1, h2⟩, h3⟩, h4⟩ := ha
      have hstep : scan (some a :: (pre.map some ++ rest)) i = scan (pre.map some ++ rest) (i + 1) := by
        simp [scan, h1, h2, h3, h4]
      rw [List.map_cons, List.cons_append, hstep, ih hp (i + 1), List.length_cons]
      congr 1
      omega

theorem set_at_length {α : Type} (pre : List α) (x y : α) (xs : List α) :
    (pre ++ x :: xs).set pre.length y = pre ++ y :: xs := by
  induction pre with
  | nil => rfl
  | cons a pre ih => simp [ih]

theorem get_after_length {α : Type} (pre : List α) (x y : α) (xs : List α) :
    (pre ++ x :: y :: xs)[pre.length + 1]? = some y := by
  induction pre with
  | nil => simp
  | cons a pre ih => simpa using ih

theorem drop_after_length {α : Type} (pre : List α) (x : α) (xs : List α) :
    (pre ++ x :: xs).drop (pre.length + 1) = xs := by
  induction pre with
  | nil => rfl
  | cons a pre ih => simp

theorem c_argv_terminated (pre : List String) (xs : List (Option String)) :
    c_argv (pre.map some ++ none :: xs) = some pre := by
  induction pre with
  | nil => rfl
  | cons a pre ih => simp [c_argv, ih]

theorem exec_tail_terminated (env : Env) (pre : List String) (xs : List (Option String)) :
    exec_tail env (pre.map some ++ none :: xs) = exec_of env pre := by
  cases pre with
  | nil => simp [exec_tail, exec_of]
  | cons a pre =>
      have h := c_argv_terminated (a :: pre) xs
      simp only [List.map_cons, List.cons_append] at h
      simp only [exec_tail, List.map_cons, List.cons_append, h, exec_of]

/-- The call of `handle_redirection_and_execute` on operator-free tokens `pre`,
a redirection operator, a file name and anything after them. -/
theorem redirect_launch_eq (env : Env) (pre : List String) (r : Redirect) (file : String)
    (rest : List (Option String)) (background : Bool)
    (hpre : ∀ t ∈ pre, is_operator t = false) :
    handle_redirection_and_execute env
        (pre.map some ++ some (redirect_token r) :: some file :: rest) background
      = ⟨⟨[Call.c_open (some file) (open_args r).1 (open_args r).2, Call.c_fork]
            ++ (if background then [] else [Call.c_wait]), Ending.returned⟩,
          [⟨redirect_dups r (env.open_ret (some file) (open_args r).1) ++ (exec_of env pre).1,
            (exec_of env pre).2⟩]⟩ := by
  have hscan : scan (pre.map some ++ some (redirect_token r) :: some file :: rest) 0
      = Scan.redirect pre.length r := by
    rw [scan_skip pre _ hpre 0]
    cases r <;> simp [scan, redirect_token]
  have hlen : (pre.map some).length = pre.length := by simp
  have hget : (pre.map some ++ some (redirect_token r) :: some file :: rest)[pre.length + 1]?
      = some (some file) := by
    have := get_after_length (pre.map some) (some (redirect_token r)) (some file) rest
    rwa [hlen] at this
  have hset : (pre.map some ++ some (redirect_token r) :: some file :: rest).set pre.length none
      = pre.map some ++ none :: some file :: rest := by
    have := set_at_length (pre.map some) (some (redirect_token r)) none (some file :: rest)
    rwa [hlen] at this
  unfold handle_redirection_and_execute
  rw [hscan]
  simp only [hget, hset, launch, exec_tail_terminated]
  cases r <;> simp [redirect_dups]

/-- The call of `handle_redirection_and_execute` on operator-free tokens `pre`,
the pipe operator, and the tokens `right` with the terminator after it. -/
theorem pipe_launch_eq (env : Env) (pre right : List String) (background : Bool)
    (hpre : ∀ t ∈ pre, is_operator t = false) :
    handle_redirection_and_execute env
        (pre.map some ++ some "|" :: (right.map some ++ [none])) background
      = ⟨⟨[Call.c_pipe, Call.c_fork, Call.c_wait, Call.c_dup2 env.pipe_read 0,
            Call.c_close env.pipe_write] ++ (exec_of env right).1, (exec_of env right).2⟩,
          [⟨[Call.c_dup2 env.pipe_write 1, Call.c_close env.pipe_read] ++ (exec_of env pre).1,
            (exec_of env pre).2⟩]⟩ := by
  have hscan : scan (pre.map some ++ some "|" :: (right.map some ++ [none])) 0
      = Scan.pipe pre.length := by
    rw [scan_skip pre _ hpre 0]
    simp [scan]
  have hlen : (pre.map some).length = pre.length := by simp
  have hset : (pre.map some ++ some "|" :: (right.map some ++ [none])).set pre.length none
      = pre.map some ++ none :: (right.map some ++ [none]) := by
    have := set_at_length (pre.map some) (some "|") none (right.map some ++ [none])
    rwa [hlen] at this
  have hdrop : (pre.map some ++ some "|" :: (right.map some ++ [none])).drop (pre.length + 1)
      = right.map some ++ [none] := by
    have := drop_after_length (pre.map some) (some "|") (right.map some ++ [none])
    rwa [hlen] at this
  unfold handle_redirection_and_execute
  rw [hscan]
  simp only [hset, hdrop, exec_tail_terminated]
  have : right.map some ++ [none] ++ [none] = right.map some ++ none :: [none] := by simp
  rw [this, exec_tail_terminated]

/-- The call of `handle_redirection_and_execute` on operator-free tokens
followed by the terminator only. -/
theorem no_operator_launch_eq (env : Env) (tokens : List String) (background : Bool)
    (h : ∀ t ∈ tokens, is_operator t = false) :
    handle_redirection_and_execute env (tokens.map some ++ [none]) background
      = ⟨⟨[], Ending.fault⟩, []⟩ := by
  have hscan : scan (tokens.map some ++ [none]) 0 = Scan.fault := by
    rw [scan_skip tokens _ h 0]
    rfl
  unfold handle_redirection_and_execute
  rw [hscan]

theorem builtin_branch_none (t0 : String) (n : Nat) (h : t0 ∉ builtin_names) :
    builtin_branch t0 n = none := by
  simp only [builtin_names, List.mem_cons, List.mem_singleton, not_or, List.not_mem_nil,
    or_false] at h
  obtain ⟨h1, h2, h3, h4, h5, h6, h7, h8, h9, h10, h11, h12, h13, h14, h15, h16, h17, h18⟩ := h
  simp [builtin_branch, h1, h2, h3, h4, h5, h6, h7, h8, h9, h10, h11, h12, h13, h14, h15, h16,
    h17, h18]

theorem descriptor_at_redirect (env : Env) (pre : List String) (r : Redirect) (fd target : Int) :
    descriptor_at target (redirect_dups r fd ++ (exec_of env pre).1)
      = if target = redirect_target r ∧ 0 ≤ fd then fd else target := by
  have hexec : ∀ cur : Int, List.foldl (descriptor_step target) cur (exec_of env pre).1 = cur := by
    intro cur
    cases pre with
    | nil => rfl
    | cons f rest => by_cases hx : env.exec_ok f <;> simp [exec_of, hx, descriptor_step]
  unfold descriptor_at
  rw [List.foldl_append, hexec]
  cases r
  · by_cases h1 : fd = 1
    · by_cases ht : target = 1
      · simp [redirect_dups, redirect_target, h1, ht]
      · simp [redirect_dups, redirect_target, h1, ht]
    · by_cases ht : target = 1
      · by_cases h0 : 0 ≤ fd
        · simp [redirect_dups, redirect_target, h1, ht, descriptor_step, h0]
        · simp [redirect_dups, redirect_target, h1, ht, descriptor_step, h0]
      · have ht2 : ¬ (1 : Int) = target := fun h => ht h.symm
        simp [redirect_dups, redirect_target, h1, ht, ht2, descriptor_step]
  · by_cases h1 : fd = 1
    · by_cases ht : target = 1
      · simp [redirect_dups, redirect_target, h1, ht]
      · simp [redirect_dups, redirect_target, h1, ht]
    · by_cases ht : target = 1
      · by_cases h0 : 0 ≤ fd
        · simp [redirect_dups, redirect_target, h1, ht, descriptor_step, h0]
        · simp [redirect_dups, redirect_target, h1, ht, descriptor_step, h0]
      · have ht2 : ¬ (1 : Int) = target := fun h => ht h.symm
        simp [redirect_dups, redirect_target, h1, ht, ht2, descriptor_step]
  · by_cases h1 : fd = 0
    · by_cases ht : target = 0
      · simp [redirect_dups, redirect_target, h1, ht]
      · simp [redirect_dups, redirect_target, h1, ht]
    · by_cases ht : target = 0
      · by_cases h0 : 0 ≤ fd
        · simp [redirect_dups, redirect_target, h1, ht, descriptor_step, h0]
        · simp [redirect_dups, redirect_target, h1, ht, descriptor_step, h0]
      · have ht2 : ¬ (0 : Int) = target := fun h => ht h.symm
        simp [redirect_dups, redirect_target, h1, ht, ht2, descriptor_step]

theorem exec_of_cons (env : Env) (f : String) (rest : List String) :
    exec_of env (f :: rest)
      = (if env.exec_ok f then ([Call.c_execvp (some f) (f :: rest)], Ending.replaced)
          else ([Call.c_execvp (some f) (f :: rest), Call.c_perror "execvp", Call.c_exit 1],
            Ending.exited 1)) := rfl

theorem exec_of_ne_returned (env : Env) (argv : List String) :
    (exec_of env argv).2 ≠ Ending.returned := by
  cases argv with
  | nil => simp [exec_of]
  | cons f rest => by_cases hx : env.exec_ok f <;> simp [exec_of, hx]

theorem digit_value_digitChar (k : Nat) (h : k < 10) : digit_value (Nat.digitChar k) = k := by
  interval_cases k <;> rfl

theorem digitChar_plain (k : Nat) (h : k < 10) :
    Nat.digitChar k ≠ ',' ∧ Nat.digitChar k ≠ '\n' ∧ Nat.digitChar k ≠ '-' := by
  interval_cases k <;> decide

theorem toDigitsCore_value (fuel : Nat) :
    ∀ (n : Nat) (ds : List Char), n < fuel →
      (Nat.toDigitsCore 10 fuel n ds).foldl (fun acc c => 10 * acc + digit_value c) 0
        = ds.foldl (fun acc c => 10 * acc + digit_value c) n := by
  induction fuel with
  | zero => intro n ds h; omega
  | succ fuel ih =>
      intro n ds h
      have hd : digit_value (Nat.digitChar (n % 10)) = n % 10 :=
        digit_value_digitChar _ (Nat.mod_lt _ (by decide))
      by_cases h0 : n / 10 = 0
      · simp only [Nat.toDigitsCore, h0, if_true, List.foldl_cons, hd]
        congr 1
        omega
      · simp only [Nat.toDigitsCore, h0, if_false]
        rw [ih (n / 10) _ (by omega), List.foldl_cons, hd]
        congr 1
        omega

theorem toDigitsCore_plain (fuel : Nat) :
    ∀ (n : Nat) (ds : List Char), (∀ c ∈ ds, c ≠ ',' ∧ c ≠ '\n' ∧ c ≠ '-') →
      ∀ c ∈ Nat.toDigitsCore 10 fuel n ds, c ≠ ',' ∧ c ≠ '\n' ∧ c ≠ '-' := by
  induction fuel with
  | zero => intro n ds h; simpa [Nat.toDigitsCore] using h
  | succ fuel ih =>
      intro n ds h
      have hd := digitChar_plain (n % 10) (Nat.mod_lt _ (by decide))
      have hds : ∀ c ∈ Nat.digitChar (n % 10) :: ds, c ≠ ',' ∧ c ≠ '\n' ∧ c ≠ '-' := by
        intro c hc
        rcases List.mem_cons.1 hc with hc | hc
        · rw [hc]; exact hd
        · exact h c hc
      by_cases h0 : n / 10 = 0
      · simp only [Nat.toDigitsCore, h0, if_true]
        exact hds
      · simp only [Nat.toDigitsCore, h0, if_false]
        exact ih _ _ hds

theorem decimal_value_toDigits (n : Nat) : decimal_value (Nat.toDigits 10 n) = n := by
  unfold decimal_value Nat.toDigits
  rw [toDigitsCore_value (n + 1) n [] (Nat.lt_succ_self n)]
  rfl

theorem toDigits_injective (a b : Nat) (h : Nat.toDigits 10 a = Nat.toDigits 10 b) : a = b := by
  rw [← decimal_value_toDigits a, ← decimal_value_toDigits b, h]

theorem toDigits_plain (n : Nat) :
    ∀ c ∈ Nat.toDigits 10 n, c ≠ ',' ∧ c ≠ '\n' ∧ c ≠ '-' :=
  toDigitsCore_plain (n + 1) n [] (fun c hc => absurd hc (List.not_mem_nil c))

theorem int_toString_data (i : Int) :
    (toString i).data
      = match i with
        | Int.ofNat m => Nat.toDigits 10 m
        | Int.negSucc m => '-' :: Nat.toDigits 10 (m + 1) := by
  cases i <;> rfl

/-- The decimal text of an integer holds no comma and no newline. -/
theorem int_toString_plain (i : Int) : ∀ c ∈ (toString i).data, c ≠ ',' ∧ c ≠ '\n' := by
  intro c hc
  rw [int_toString_data] at hc
  cases i with
  | ofNat m => exact ⟨(toDigits_plain m c hc).1, (toDigits_plain m c hc).2.1⟩
  | negSucc m =>
      rcases List.mem_cons.1 hc with hc | hc
      · rw [hc]; decide
      · exact ⟨(toDigits_plain _ c hc).1, (toDigits_plain _ c hc).2.1⟩

/-- Two integers with the same decimal text are equal. -/
theorem int_toString_injective (i j : Int) (h : (toString i).data = (toString j).data) :
    i = j := by
  rw [int_toString_data, int_toString_data] at h
  cases i with
  | ofNat m =>
      cases j with
      | ofNat k => rw [toDigits_injective m k h]
      | negSucc k =>
          exfalso
          have hm : '-' ∈ Nat.toDigits 10 m := by
            have : Nat.toDigits 10 m = '-' :: Nat.toDigits 10 (k + 1) := h
            rw [this]; simp
          exact (toDigits_plain m _ hm).2.2 rfl
  | negSucc m =>
      cases j with
      | ofNat k =>
          exfalso
          have hm : '-' ∈ Nat.toDigits 10 k := by
            have : '-' :: Nat.toDigits 10 (m + 1) = Nat.toDigits 10 k := h
            rw [← this]; simp
          exact (toDigits_plain k _ hm).2.2 rfl
      | negSucc k =>
          have h2 : Nat.toDigits 10 (m + 1) = Nat.toDigits 10 (k + 1) := (List.cons.inj h).2
          have := toDigits_injective _ _ h2
          have hmk : m = k := by omega
          rw [hmk]

/-- A list is cut in one way only at the first occurrence of a character. -/
theorem split_at_first (x : Char) (a : List Char) :
    ∀ (a1 b b1 : List Char), x ∉ a → x ∉ a1 → a ++ x :: b = a1 ++ x :: b1 → a = a1 ∧ b = b1 := by
  induction a with
  | nil =>
      intro a1 b b1 _ h1 h
      cases a1 with
      | nil => exact ⟨rfl, (List.cons.inj h).2⟩
      | cons c a1 =>
          exfalso
          have : x = c := (List.cons.inj h).1
          exact h1 (by simp [this])
  | cons c a ih =>
      intro a1 b b1 h0 h1 h
      cases a1 with
      | nil =>
          exfalso
          have : c = x := (List.cons.inj h).1
          exact h0 (by simp [this])
      | cons d a1 =>
          have hcd : c = d := (List.cons.inj h).1
          have hrest : a ++ x :: b = a1 ++ x :: b1 := (List.cons.inj h).2
          have := ih a1 b b1 (fun hx => h0 (List.mem_cons_of_mem _ hx))
            (fun hx => h1 (List.mem_cons_of_mem _ hx)) hrest
          exact ⟨by rw [hcd, this.1], this.2⟩

theorem save_line_data (t : Task) : (save_line t).data = line_chars t := by
  simp [save_line, line_chars, String.data_append]

theorem concat_text_data (l : List Task) :
    (concat_text (l.map save_line)).data = text_chars l := by
  induction l with
  | nil => rfl
  | cons t l ih =>
      simp only [List.map_cons, concat_text, String.data_append, save_line_data, ih, text_chars]

/-- A task is determined by its line when its command holds no newline: the
id ends at the first comma, the priority at the second, the command at the
newline. -/
theorem line_chars_split (t u : Task) (rest1 rest2 : List Char)
    (ht : '\n' ∉ t.command.data) (hu : '\n' ∉ u.command.data)
    (h : line_chars t ++ rest1 = line_chars u ++ rest2) : t = u ∧ rest1 = rest2 := by
  have hid : ∀ v : Task, ',' ∉ (toString v.id).data :=
    fun v hv => (int_toString_plain v.id _ hv).1 rfl
  have hpr : ∀ v : Task, ',' ∉ (toString v.priority).data :=
    fun v hv => (int_toString_plain v.priority _ hv).1 rfl
  have hbody : ∀ v : Task, '\n' ∉ v.command.data → '\n' ∉
      (toString v.id).data ++ ',' :: ((toString v.priority).data ++ ',' :: v.command.data) := by
    intro v hv hmem
    simp only [List.mem_append, List.mem_cons] at hmem
    rcases hmem with hmem | hmem | hmem | hmem | hmem
    · exact (int_toString_plain v.id _ hmem).2 rfl
    · exact absurd hmem (by decide)
    · exact (int_toString_plain v.priority _ hmem).2 rfl
    · exact absurd hmem (by decide)
    · exact hv hmem
  have hshape : ∀ (v : Task) (rest : List Char), line_chars v ++ rest
      = ((toString v.id).data ++ ',' :: ((toString v.priority).data ++ ',' :: v.command.data))
          ++ '\n' :: rest := by
    intro v rest
    simp [line_chars]
  rw [hshape t, hshape u] at h
  obtain ⟨hb, hrest⟩ := split_at_first '\n' _ _ _ _ (hbody t ht) (hbody u hu) h
  obtain ⟨h1, hb2⟩ := split_at_first ',' _ _ _ _ (hid t) (hid u) hb
  obtain ⟨h2, h3⟩ := split_at_first ',' _ _ _ _ (hpr t) (hpr u) hb2
  refine ⟨?_, hrest⟩
  cases t with
  | mk tid tcmd tpri =>
      cases u with
      | mk uid ucmd upri =>
          have e1 : tid = uid := int_toString_injective _ _ h1
          have e2 : tpri = upri := int_toString_injective _ _ h2
          have e3 : tcmd = ucmd := by
            cases tcmd; cases ucmd
            simp only at h3
            rw [h3]
          rw [e1, e2, e3]

theorem line_chars_ne_nil (t : Task) (rest : List Char) : line_chars t ++ rest ≠ [] := by
  intro h
  have : (line_chars t ++ rest).length = 0 := by rw [h]; rfl
  simp [line_chars] at this

/-- The written characters determine the sequence of tasks. -/
theorem text_chars_injective (l1 : List Task) :
    ∀ l2 : List Task, (∀ t ∈ l1, '\n' ∉ t.command.data) → (∀ t ∈ l2, '\n' ∉ t.command.data) →
      text_chars l1 = text_chars l2 → l1 = l2 := by
  induction l1 with
  | nil =>
      intro l2 _ _ h
      cases l2 with
      | nil => rfl
      | cons u l2 => exact absurd h.symm (line_chars_ne_nil u _)
  | cons t l1 ih =>
      intro l2 h1 h2 h
      cases l2 with
      | nil => exact absurd h (line_chars_ne_nil t _)
      | cons u l2 =>
          obtain ⟨htu, hrest⟩ := line_chars_split t u _ _ (h1 t (by simp)) (h2 u (by simp)) h
          have := ih l2 (fun v hv => h1 v (by simp [hv])) (fun v hv => h2 v (by simp [hv])) hrest
          rw [htu, this]

/-- A list made of priority-1 tasks followed by tasks of other priorities is
cut in one way only. -/
theorem split_by_priority (a : List Task) :
    ∀ (a1 b b1 : List Task), (∀ t ∈ a, t.priority = 1) → (∀ t ∈ a1, t.priority = 1) →
      (∀ t ∈ b, t.priority ≠ 1) → (∀ t ∈ b1, t.priority ≠ 1) →
      a ++ b = a1 ++ b1 → a = a1 ∧ b = b1 := by
  induction a with
  | nil =>
      intro a1 b b1 _ ha1 hb _ h
      cases a1 with
      | nil => exact ⟨rfl, h⟩
      | cons c a1 =>
          exfalso
          have hc : c ∈ b := by
            have : b = c :: (a1 ++ b1) := h
            rw [this]; simp
          exact hb c hc (ha1 c (by simp))
  | cons c a ih =>
      intro a1 b b1 ha ha1 hb hb1 h
      cases a1 with
      | nil =>
          exfalso
          have hc : c ∈ b1 := by
            have : c :: (a ++ b) = b1 := h
            rw [← this]; simp
          exact hb1 c hc (ha c (by simp))
      | cons d a1 =>
          have hcd : c = d := (List.cons.inj h).1
          have := ih a1 b b1 (fun t ht => ha t (by simp [ht])) (fun t ht => ha1 t (by simp [ht]))
            hb hb1 (List.cons.inj h).2
          exact ⟨by rw [hcd, this.1], this.2⟩

theorem script_paths_append (a b : List Task) :
    script_paths (a ++ b) = script_paths a ++ script_paths b := by
  simp [script_paths]

/-- C2: when the queued ids are pairwise distinct and `id` is queued,
`cancel_task id` removes exactly the task `t` carrying that id: each queue is
its old content with `t` erased, the listing of both queues is the old listing
with `t` erased (so every other task stays, unchanged and in the same relative
order), the number of queued tasks drops by exactly one, and the id counter is
untouched. -/
theorem cancel_task_removes_exactly_one (s : Store) (id : Int)
    (hd : ((snapshot s).map Task.id).Nodup) (hin : queued id s) :
    ∃ t ∈ snapshot s, t.id = id ∧
      (cancel_task id s).1.rr_queue = s.rr_queue.erase t ∧
      (cancel_task id s).1.fcfs_queue = s.fcfs_queue.erase t ∧
      snapshot (cancel_task id s).1 = (snapshot s).erase t ∧
      (snapshot (cancel_task id s).1).Sublist (snapshot s) ∧
      (∀ u ∈ snapshot s, u ≠ t → u ∈ snapshot (cancel_task id s).1) ∧
      t ∉ snapshot (cancel_task id s).1 ∧
      (snapshot (cancel_task id s).1).length + 1 = (snapshot s).length ∧
      (cancel_task id s).1.task_id_counter = s.task_id_counter := by
  obtain ⟨t, ht, hid⟩ := hin
  have ht1 : t ∈ snapshot s := ht
  have hrr : (cancel_task id s).1.rr_queue = s.rr_queue.erase t := by
    rw [cancel_task_store, ← hid]
    exact filter_id_eq_erase_sub (snapshot s) s.rr_queue t hd (List.sublist_append_left _ _) ht1
  have hfc : (cancel_task id s).1.fcfs_queue = s.fcfs_queue.erase t := by
    rw [cancel_task_store, ← hid]
    exact filter_id_eq_erase_sub (snapshot s) s.fcfs_queue t hd (List.sublist_append_right _ _) ht1
  have hsn : snapshot (cancel_task id s).1 = (snapshot s).erase t := by
    rw [← filter_id_eq_erase_sub (snapshot s) (snapshot s) t hd (List.Sublist.refl _) ht1,
      cancel_task_store, hid]
    simp [snapshot]
  have hnd : (snapshot s).Nodup := List.Nodup.of_map _ hd
  refine ⟨t, ht1, hid, hrr, hfc, hsn, ?_, ?_, ?_, ?_, ?_⟩
  · rw [hsn]; exact List.erase_sublist t _
  · intro u hu hut
    rw [hsn]
    exact (List.mem_erase_of_ne hut).2 hu
  · rw [hsn]
    exact List.Nodup.not_mem_erase hnd
  · rw [hsn, List.length_erase_of_mem ht1]
    have : 0 < (snapshot s).length := List.length_pos_of_mem ht1
    omega
  · rw [cancel_task_store]

/-- Witness for C2: cancelling id 2 in a store holding tasks 1, 3 (high) and 2
(low). -/
theorem cancel_task_removes_exactly_one_witness :
    ∃ t ∈ snapshot ⟨[⟨1, "a.script", 1⟩, ⟨3, "c.script", 1⟩], [⟨2, "b.script", 2⟩], 4⟩,
      t.id = 2 ∧
      (cancel_task 2 ⟨[⟨1, "a.script", 1⟩, ⟨3, "c.script", 1⟩], [⟨2, "b.script", 2⟩], 4⟩).1.rr_queue
        = ([⟨1, "a.script", 1⟩, ⟨3, "c.script", 1⟩] : List Task).erase t := by
  obtain ⟨t, h1, h2, h3, _⟩ := cancel_task_removes_exactly_one
    ⟨[⟨1, "a.script", 1⟩, ⟨3, "c.script", 1⟩], [⟨2, "b.script", 2⟩], 4⟩ 2
    (by decide) (by decide)
  exact ⟨t, h1, h2, h3⟩

/-- C3: when no queued task carries `id`, `cancel_task id` and
`modify_task id c` return the store they were given: both queues (content and
order) and `task_id_counter` are the same. In particular `cancel_task 99` on a
store with two empty queues leaves it as it is, and for every store a second
`cancel_task id` right after a first one changes nothing. -/
theorem cancel_modify_miss_unchanged (s : Store) (id : Int) (c : String)
    (h : ¬ queued id s) :
    (cancel_task id s).1 = s ∧ (modify_task id c s).1 = s ∧
      (∀ n : Int, (cancel_task 99 ⟨[], [], n⟩).1 = ⟨[], [], n⟩) ∧
      (∀ s0 : Store, (cancel_task id (cancel_task id s0).1).1 = (cancel_task id s0).1) := by
  have hrr : ∀ t ∈ s.rr_queue, t.id ≠ id := fun t ht hid =>
    h ⟨t, List.mem_append_left _ ht, hid⟩
  have hfc : ∀ t ∈ s.fcfs_queue, t.id ≠ id := fun t ht hid =>
    h ⟨t, List.mem_append_right _ ht, hid⟩
  refine ⟨?_, ?_, ?_, ?_⟩
  · rw [cancel_task_store, filter_miss id _ hrr, filter_miss id _ hfc]
  · rw [modify_task_store, map_rewritten_miss id c _ hrr, map_rewritten_miss id c _ hfc]
  · intro n
    rw [cancel_task_store]
    rfl
  · intro s0
    rw [cancel_task_store, cancel_task_store]
    simp

/-- Witness for C3: id 99 on the fresh store. -/
theorem cancel_modify_miss_unchanged_witness :
    ¬ queued 99 Store.fresh ∧ (cancel_task 99 Store.fresh).1 = Store.fresh ∧
      (modify_task 99 "x.script" Store.fresh).1 = Store.fresh :=
  ⟨by decide,
    (cancel_modify_miss_unchanged Store.fresh 99 "x.script" (by decide)).1,
    (cancel_modify_miss_unchanged Store.fresh 99 "x.script" (by decide)).2.1⟩

/-- C5: `modify_task id c` changes only command fields of tasks carrying `id`.
For every store (with pairwise distinct ids or not): both queues keep their
length, the sequence of (id, priority) pairs of each queue is the same, at
every position a task with another id is the same task and a task with id `id`
has command `c`, and `task_id_counter` is the same. -/
theorem modify_task_changes_only_command (s : Store) (id : Int) (c : String) :
    (modify_task id c s).1.rr_queue.length = s.rr_queue.length ∧
    (modify_task id c s).1.fcfs_queue.length = s.fcfs_queue.length ∧
    (modify_task id c s).1.rr_queue.map (fun t => (t.id, t.priority))
      = s.rr_queue.map (fun t => (t.id, t.priority)) ∧
    (modify_task id c s).1.fcfs_queue.map (fun t => (t.id, t.priority))
      = s.fcfs_queue.map (fun t => (t.id, t.priority)) ∧
    List.Forall₂ (fun t u => (t.id ≠ id → u = t) ∧ (t.id = id → u.command = c))
      s.rr_queue (modify_task id c s).1.rr_queue ∧
    List.Forall₂ (fun t u => (t.id ≠ id → u = t) ∧ (t.id = id → u.command = c))
      s.fcfs_queue (modify_task id c s).1.fcfs_queue ∧
    (modify_task id c s).1.task_id_counter = s.task_id_counter := by
  have key : ∀ l : List Task,
      (l.map (rewritten id c)).map (fun t => (t.id, t.priority))
          = l.map (fun t => (t.id, t.priority)) ∧
        List.Forall₂ (fun t u => (t.id ≠ id → u = t) ∧ (t.id = id → u.command = c))
          l (l.map (rewritten id c)) := by
    intro l
    induction l with
    | nil => simp
    | cons t l ih =>
        refine ⟨?_, ?_⟩
        · have := ih.1
          by_cases ht : t.id = id
          · simp [rewritten, ht] at this ⊢
            exact this
          · simp [rewritten, ht] at this ⊢
            exact this
        · rw [List.map_cons]
          refine List.Forall₂.cons ⟨?_, ?_⟩ ih.2
          · intro ht; simp [rewritten, ht]
          · intro ht; simp [rewritten, ht]
  rw [modify_task_store]
  exact ⟨by simp, by simp, (key _).1, (key _).1, (key _).2, (key _).2, rfl⟩

/-- C9: `add_task id command priority` appends the task `(id, command,
priority)` at the back of exactly one queue and leaves the other queue and the
id counter as they were: the round-robin queue when `priority` is 1, the FCFS
queue for every other integer (0, negative values, 2, 3, ...). -/
theorem add_task_routes_by_priority (id : Int) (command : String) (priority : Int) (s : Store) :
    (add_task id command priority s).rr_queue
        = s.rr_queue ++ (if priority = 1 then [⟨id, command, priority⟩] else []) ∧
      (add_task id command priority s).fcfs_queue
        = s.fcfs_queue ++ (if priority = 1 then [] else [⟨id, command, priority⟩]) ∧
      (add_task id command priority s).task_id_counter = s.task_id_counter := by
  by_cases h : priority = 1
  · simp [add_task, h]
  · simp [add_task, h]

/-- C4, as stated, fails: `cancel_task 99` and `modify_task 99` write the same
text whether task 99 is queued or not, so no reading of the report tells a hit
from a miss. -/
theorem cancel_modify_report_ignores_presence :
    ¬ queued 99 Store.fresh ∧ queued 99 ⟨[⟨99, "a.script", 1⟩], [], 100⟩ ∧
      (cancel_task 99 Store.fresh).2 = ⟨"Task 99 cancelled.\n", ""⟩ ∧
      (cancel_task 99 ⟨[⟨99, "a.script", 1⟩], [], 100⟩).2 = ⟨"Task 99 cancelled.\n", ""⟩ ∧
      (modify_task 99 "b.script" Store.fresh).2 = ⟨"Task 99 modified.\n", ""⟩ ∧
      (modify_task 99 "b.script" ⟨[⟨99, "a.script", 1⟩], [], 100⟩).2
        = ⟨"Task 99 modified.\n", ""⟩ ∧
      (¬ ∃ found : Console → Bool, ∀ (s : Store) (id : Int),
        (found (cancel_task id s).2 = true ↔ queued id s)) ∧
      (¬ ∃ found : Console → Bool, ∀ (s : Store) (id : Int) (c : String),
        (found (modify_task id c s).2 = true ↔ queued id s)) := by
  have h1 : ¬ queued 99 Store.fresh := by decide
  have h2 : queued 99 ⟨[⟨99, "a.script", 1⟩], [], 100⟩ := by decide
  refine ⟨h1, h2, by decide, by decide, by decide, by decide, ?_, ?_⟩
  · rintro ⟨found, hf⟩
    have a := hf Store.fresh 99
    have b := hf ⟨[⟨99, "a.script", 1⟩], [], 100⟩ 99
    have e : (cancel_task 99 Store.fresh).2
        = (cancel_task 99 ⟨[⟨99, "a.script", 1⟩], [], 100⟩).2 := rfl
    rw [e] at a
    exact h1 (a.1 (b.2 h2))
  · rintro ⟨found, hf⟩
    have a := hf Store.fresh 99 "b.script"
    have b := hf ⟨[⟨99, "a.script", 1⟩], [], 100⟩ 99 "b.script"
    have e : (modify_task 99 "b.script" Store.fresh).2
        = (modify_task 99 "b.script" ⟨[⟨99, "a.script", 1⟩], [], 100⟩).2 := rfl
    rw [e] at a
    exact h1 (a.1 (b.2 h2))

/-- C4, amended: `cancel_task` and `modify_task` return nothing to the caller, and
what they report is fixed by the id alone: for every store, `cancel_task id`
writes "Task <id> cancelled." and `modify_task id c` writes "Task <id>
modified." on standard output and nothing on standard error, the same text for
any two stores, whether or not a task with that id is queued. -/
theorem cancel_modify_report_fixed (s s0 : Store) (id : Int) (c : String) :
    (cancel_task id s).2 = ⟨"Task " ++ toString id ++ " cancelled.\n", ""⟩ ∧
      (modify_task id c s).2 = ⟨"Task " ++ toString id ++ " modified.\n", ""⟩ ∧
      (cancel_task id s).2 = (cancel_task id s0).2 ∧
      (modify_task id c s).2 = (modify_task id c s0).2 :=
  ⟨rfl, rfl, rfl, rfl⟩

/-- C10, as stated, fails: a non-empty command whose file cannot be opened is
not scheduled. `jschedule_command "missing.script" 1` on the fresh store, with
the file unreadable, queues nothing, hands out no id, keeps the counter at 1
and writes the error line. -/
theorem jschedule_unreadable_not_queued :
    "missing.script" ≠ "" ∧
      jschedule_command "missing.script" 1 false Store.fresh
        = (Store.fresh, ⟨"", "Error: Unable to open file missing.script\n"⟩, none) := by
  decide

/-- C10, amended: `jschedule_command` succeeds exactly when the file named by the
command can be opened. When it opens, the task `(task_id_counter, filename,
priority)` is appended to the queue selected by the priority, the other queue
is unchanged, and the counter advances by one (32-bit wrap-around; plain `+ 1`
below `INT_MAX`). When it does not open, which is always so for the empty
command, the store is returned unchanged (queues and counter), no id is handed
out and the error line goes to standard error. -/
theorem jschedule_command_effect (filename : String) (priority : Int) (readable : Bool)
    (s : Store) :
    (ifstream_is_open readable filename = true →
      (jschedule_command filename priority readable s).1.rr_queue
          = s.rr_queue ++ (if priority = 1 then [⟨s.task_id_counter, filename, priority⟩] else []) ∧
        (jschedule_command filename priority readable s).1.fcfs_queue
          = s.fcfs_queue ++ (if priority = 1 then [] else [⟨s.task_id_counter, filename, priority⟩]) ∧
        (snapshot (jschedule_command filename priority readable s).1).length
          = (snapshot s).length + 1 ∧
        (jschedule_command filename priority readable s).1.task_id_counter
          = wrapInt (s.task_id_counter + 1) ∧
        (-2147483648 ≤ s.task_id_counter → s.task_id_counter < INT_MAX →
          (jschedule_command filename priority readable s).1.task_id_counter
            = s.task_id_counter + 1) ∧
        (jschedule_command filename priority readable s).2.2 = some s.task_id_counter ∧
        (jschedule_command filename priority readable s).2.1
          = ⟨"[Script file " ++ filename ++ " scheduled as a single task]\n", ""⟩) ∧
    (ifstream_is_open readable filename = false →
      (jschedule_command filename priority readable s).1 = s ∧
        (jschedule_command filename priority readable s).2.2 = none ∧
        (jschedule_command filename priority readable s).2.1
          = ⟨"", "Error: Unable to open file " ++ filename ++ "\n"⟩) ∧
    ifstream_is_open readable "" = false ∧
    (jschedule_command "" priority readable s).1 = s := by
  have hempty : ifstream_is_open readable "" = false := by
    simp [ifstream_is_open, c_str]
  refine ⟨?_, ?_, hempty, ?_⟩
  · intro h
    have hs : jschedule_command filename priority readable s
        = (add_task s.task_id_counter filename priority
            { s with task_id_counter := wrapInt (s.task_id_counter + 1) },
          ⟨"[Script file " ++ filename ++ " scheduled as a single task]\n", ""⟩,
          some s.task_id_counter) := by
      simp [jschedule_command, h]
    rw [hs]
    refine ⟨?_, ?_, ?_, ?_, ?_, rfl, rfl⟩
    · by_cases hp : priority = 1 <;> simp [add_task, hp]
    · by_cases hp : priority = 1 <;> simp [add_task, hp]
    · by_cases hp : priority = 1 <;> simp [add_task, hp, snapshot] <;> omega
    · by_cases hp : priority = 1 <;> simp [add_task, hp]
    · intro hlo hhi
      have : wrapInt (s.task_id_counter + 1) = s.task_id_counter + 1 := by
        unfold INT_MAX at hhi
        unfold wrapInt
        omega
      by_cases hp : priority = 1 <;> simp [add_task, hp, this]
  · intro h
    simp [jschedule_command, h]
  · simp [jschedule_command, hempty]

/-- Witness for C10 (amended): both branches at concrete inputs. -/
theorem jschedule_command_effect_witness :
    ifstream_is_open true "a.script" = true ∧
      (jschedule_command "a.script" 1 true Store.fresh).1.rr_queue = [⟨1, "a.script", 1⟩] ∧
      ifstream_is_open false "a.script" = false ∧
      (jschedule_command "a.script" 1 false Store.fresh).1 = Store.fresh :=
  ⟨by decide,
    ((jschedule_command_effect "a.script" 1 true Store.fresh).1 (by decide)).1,
    by decide,
    ((jschedule_command_effect "a.script" 1 false Store.fresh).2.1 (by decide)).1⟩

/-- C7: for every store, every script interpreter (any exit codes, any effect
on its world) and every queued command, empty ones included,
`multi_level_schedule` returns, and it returns a store in which `rr_queue` and
`fcfs_queue` are both empty; so do its two phases for their queue. -/
theorem multi_level_schedule_drains {W : Type} (run_jam_script : String → W → Int × W)
    (s : Store) (e : Effects W) :
    (multi_level_schedule run_jam_script s e).1.rr_queue = [] ∧
      (multi_level_schedule run_jam_script s e).1.fcfs_queue = [] ∧
      (round_robin_schedule run_jam_script s e).1.rr_queue = [] ∧
      (fcfs_schedule run_jam_script s e).1.fcfs_queue = [] := by
  rw [multi_level_schedule_store]
  simp [fcfs_schedule, round_robin_schedule, round_robin_loop_eq, fcfs_loop_eq]

/-- C6: after any sequence of successful `jschedule_command` calls on the fresh
store (N of them with priority 1, M with another priority, interleaved in any
way), the high queue holds exactly the priority-1 tasks and the low queue the
others, each in the order of the calls; the snapshot is the high tasks followed
by the low tasks and has N + M tasks; `print_scheduled_tasks` lists and
`save_queues_to_file` writes exactly that sequence. The tasks created carry the
given commands and priorities and, for fewer than 2^31 calls, the ids 1, 2, 3,
... in call order. -/
theorem snapshot_after_adds (adds : List (String × Int)) (h : ∀ a ∈ adds, c_str a.1 ≠ "") :
    (schedule_all adds Store.fresh).rr_queue
        = (created_tasks 1 adds).filter (fun t => decide (t.priority = 1)) ∧
      (schedule_all adds Store.fresh).fcfs_queue
        = (created_tasks 1 adds).filter (fun t => decide (t.priority ≠ 1)) ∧
      snapshot (schedule_all adds Store.fresh)
        = (created_tasks 1 adds).filter (fun t => decide (t.priority = 1))
          ++ (created_tasks 1 adds).filter (fun t => decide (t.priority ≠ 1)) ∧
      (created_tasks 1 adds).map (fun t => (t.command, t.priority)) = adds ∧
      (adds.length ≤ 2147483647 →
        (created_tasks 1 adds).map Task.id
          = (List.range adds.length).map (fun (i : Nat) => 1 + (i : Int))) ∧
      (snapshot (schedule_all adds Store.fresh)).map (fun t => (t.command, t.priority))
        = adds.filter (fun a => decide (a.2 = 1)) ++ adds.filter (fun a => decide (a.2 ≠ 1)) ∧
      (snapshot (schedule_all adds Store.fresh)).length
        = adds.countP (fun a => decide (a.2 = 1)) + adds.countP (fun a => decide (a.2 ≠ 1)) ∧
      (print_scheduled_tasks (schedule_all adds Store.fresh)).2.cout
        = "Scheduled Tasks (RR - High Priority):\n"
          ++ concat_text (((created_tasks 1 adds).filter
              (fun t => decide (t.priority = 1))).map print_line)
          ++ "\nScheduled Tasks (FCFS - Low Priority):\n"
          ++ concat_text (((created_tasks 1 adds).filter
              (fun t => decide (t.priority ≠ 1))).map print_line) ∧
      (save_queues_to_file true (schedule_all adds Store.fresh)).2
        = some (concat_text (((created_tasks 1 adds).filter (fun t => decide (t.priority = 1))
            ++ (created_tasks 1 adds).filter (fun t => decide (t.priority ≠ 1))).map
              save_line)) := by
  have hq := schedule_all_eq adds Store.fresh h
  have hrr : (schedule_all adds Store.fresh).rr_queue
      = (created_tasks 1 adds).filter (fun t => decide (t.priority = 1)) := by
    rw [hq.1]; rfl
  have hfc : (schedule_all adds Store.fresh).fcfs_queue
      = (created_tasks 1 adds).filter (fun t => decide (t.priority ≠ 1)) := by
    rw [hq.2]; rfl
  have hsn : snapshot (schedule_all adds Store.fresh)
      = (created_tasks 1 adds).filter (fun t => decide (t.priority = 1))
        ++ (created_tasks 1 adds).filter (fun t => decide (t.priority ≠ 1)) := by
    rw [snapshot, hrr, hfc]
  have hin := created_tasks_inputs 1 adds
  have hmap : (snapshot (schedule_all adds Store.fresh)).map (fun t => (t.command, t.priority))
      = adds.filter (fun a => decide (a.2 = 1)) ++ adds.filter (fun a => decide (a.2 ≠ 1)) := by
    rw [hsn, List.map_append]
    conv_rhs => rw [← hin]
    rw [List.filter_map, List.filter_map]
    rfl
  refine ⟨hrr, hfc, hsn, hin, ?_, hmap, ?_, ?_, ?_⟩
  · intro hlen
    apply created_tasks_ids
    right
    constructor
    · norm_num
    · have : (adds.length : Int) ≤ 2147483647 := by exact_mod_cast hlen
      omega
  · rw [← List.length_map (snapshot (schedule_all adds Store.fresh))
      (fun t => (t.command, t.priority)), hmap, List.length_append,
      List.countP_eq_length_filter, List.countP_eq_length_filter]
  · rw [print_scheduled_tasks_eq, hrr, hfc]
  · rw [save_queues_to_file_eq, hsn]
    rfl

/-- Witness for C6: the scenario `Add("a.script",1)`, `Add("b.script",2)`,
`Add("c.script",1)` gives the snapshot `[(1,1,"a.script"), (3,1,"c.script"),
(2,2,"b.script")]`. -/
theorem snapshot_after_adds_witness :
    (∀ a ∈ [("a.script", (1 : Int)), ("b.script", 2), ("c.script", 1)], c_str a.1 ≠ "") ∧
      snapshot (schedule_all [("a.script", 1), ("b.script", 2), ("c.script", 1)] Store.fresh)
        = [⟨1, "a.script", 1⟩, ⟨3, "c.script", 1⟩, ⟨2, "b.script", 2⟩] ∧
      (save_queues_to_file true
          (schedule_all [("a.script", 1), ("b.script", 2), ("c.script", 1)] Store.fresh)).2
        = some "1,1,a.script\n3,1,c.script\n2,2,b.script\n" := by
  have H := snapshot_after_adds [("a.script", 1), ("b.script", 2), ("c.script", 1)] (by decide)
  refine ⟨by decide, ?_, ?_⟩
  · rw [H.2.2.1]
    decide
  · rw [H.2.2.2.2.2.2.2.2]
    decide

/-- C1, as stated, fails for very long runs: `task_id_counter` is a 32-bit
`int`. After 2^31 - 1 successful `jschedule_command` calls on the fresh store
(ids 1 .. 2^31 - 1) the counter has wrapped, and the next successful call hands
out -2147483648, which is smaller than every id handed out before it. -/
theorem assigned_ids_wrap_after_int_max :
    (run (fun (_ : String) (w : Unit) => ((0 : Int), w))
        (List.replicate 2147483648 (Op.add "a.script" 1 true)) Store.fresh
        ⟨(), "", "", []⟩ []).2.2
      = (List.range 2147483647).map (fun (i : Nat) => 1 + (i : Int)) ++ [-2147483648] ∧
    ¬ List.Pairwise (fun a b : Int => a < b)
      (run (fun (_ : String) (w : Unit) => ((0 : Int), w))
        (List.replicate 2147483648 (Op.add "a.script" 1 true)) Store.fresh
        ⟨(), "", "", []⟩ []).2.2 :=
  run_wraps (fun (_ : String) (w : Unit) => ((0 : Int), w)) ⟨(), "", "", []⟩
    2147483647 2147483648 (by norm_num) rfl

/-- C1, amended: in every sequence of task-store operations on the fresh store
(`jschedule_command`, `cancel_task`, `modify_task`, `print_scheduled_tasks`,
`save_queues_to_file`, `multi_level_schedule`, with any script interpreter)
in which at most 2^31 - 1 `jschedule_command` calls succeed, the ids handed out
are 1, 2, 3, ... in call order: the first is 1, each later one is strictly
greater than all before it, so ids are unique and never reused, whatever was
cancelled or executed in between. -/
theorem assigned_ids_strictly_increasing {W : Type} (run_jam_script : String → W → Int × W)
    (ops : List Op) (e : Effects W) (h : successfulAdds ops ≤ 2147483647) :
    (run run_jam_script ops Store.fresh e []).2.2
        = (List.range (successfulAdds ops)).map (fun (i : Nat) => 1 + (i : Int)) ∧
      List.Pairwise (fun a b : Int => a < b) (run run_jam_script ops Store.fresh e []).2.2 ∧
      (run run_jam_script ops Store.fresh e []).2.2.Nodup ∧
      (∀ x, (run run_jam_script ops Store.fresh e []).2.2.head? = some x → x = 1) ∧
      (∀ x ∈ (run run_jam_script ops Store.fresh e []).2.2, 1 ≤ x) := by
  have hr := (run_ids run_jam_script ops Store.fresh e [] (Or.inr (by
    refine ⟨by decide, ?_⟩
    show (1 : Int) + (successfulAdds ops : Int) ≤ 2147483648
    have : (successfulAdds ops : Int) ≤ 2147483647 := by exact_mod_cast h
    omega))).1
  have hids : (run run_jam_script ops Store.fresh e []).2.2
      = (List.range (successfulAdds ops)).map (fun (i : Nat) => 1 + (i : Int)) := by
    rw [hr]; rfl
  have hpw : List.Pairwise (fun a b : Int => a < b)
      ((List.range (successfulAdds ops)).map (fun (i : Nat) => 1 + (i : Int))) := by
    rw [List.pairwise_map]
    refine List.Pairwise.imp ?_ (List.pairwise_lt_range _)
    intro a b hab
    have : (a : Int) < b := by exact_mod_cast hab
    omega
  rw [hids]
  refine ⟨rfl, hpw, ?_, ?_, ?_⟩
  · exact hpw.imp (fun hab => ne_of_lt hab)
  · intro x hx
    cases hk : successfulAdds ops with
    | zero => rw [hk] at hx; simp at hx
    | succ k =>
        rw [hk, List.range_succ_eq_map] at hx
        simp at hx
        exact hx.symm
  · intro x hx
    obtain ⟨i, _, rfl⟩ := List.mem_map.1 hx
    omega

/-- Witness for C1 (amended): three adds interleaved with a cancel, a pass, a
failed add and a modify hand out 1, 2, 3. -/
theorem assigned_ids_strictly_increasing_witness :
    successfulAdds [Op.add "a.script" 1 true, Op.cancel 1, Op.add "b.script" 2 true,
        Op.schedule, Op.add "missing.script" 1 false, Op.modify 2 "x", Op.print, Op.save true,
        Op.add "c.script" 1 true] ≤ 2147483647 ∧
      (run (fun (_ : String) (w : Unit) => ((0 : Int), w))
        [Op.add "a.script" 1 true, Op.cancel 1, Op.add "b.script" 2 true,
        Op.schedule, Op.add "missing.script" 1 false, Op.modify 2 "x", Op.print, Op.save true,
        Op.add "c.script" 1 true] Store.fresh ⟨(), "", "", []⟩ []).2.2 = [1, 2, 3] := by
  have H := assigned_ids_strictly_increasing (fun (_ : String) (w : Unit) => ((0 : Int), w))
    [Op.add "a.script" 1 true, Op.cancel 1, Op.add "b.script" 2 true,
        Op.schedule, Op.add "missing.script" 1 false, Op.modify 2 "x", Op.print, Op.save true,
        Op.add "c.script" 1 true] ⟨(), "", "", []⟩ (by decide)
  refine ⟨by decide, ?_⟩
  rw [H.1]
  decide

/-- C11: `execute_task` calls the script interpreter exactly once when the
command is not empty, with the command (as the C string `c_str` hands over,
which is the command itself when it holds no NUL character) as the path, and
not at all when the command is empty, where it only writes the error line. This
is so for every exit code; no code changes what `execute_task` returns to its
caller besides the text on standard error, and the recorded events are never
touched. -/
theorem execute_task_calls_interpreter_once {W : Type} (run_jam_script : String → W → Int × W)
    (code : String → Int) (task : Task) (e : Effects W) (l : Effects (List String)) :
    (execute_task run_jam_script task e).world
        = (if task.command ≠ "" then (run_jam_script (c_str task.command) e.world).2
            else e.world) ∧
      (execute_task (recording_interpreter code) task l).world
        = (if task.command ≠ "" then l.world ++ [c_str task.command] else l.world) ∧
      ((∀ ch ∈ task.command.toList, ch ≠ Char.ofNat 0) → c_str task.command = task.command) ∧
      (task.command = "" →
        execute_task run_jam_script task e
          = { e with cerr := e.cerr ++ "[Scheduler] Error: Empty filename in task command.\n" }) ∧
      (task.command ≠ "" →
        (execute_task run_jam_script task e).cout
          = e.cout ++ "[Scheduler] Executing JAM script: " ++ task.command ++ "\n" ∧
        (execute_task run_jam_script task e).cerr
          = (if (run_jam_script (c_str task.command) e.world).1 ≠ 0 then
              e.cerr ++ "JAM execution failed with code: "
                ++ toString (run_jam_script (c_str task.command) e.world).1 ++ "\n"
            else e.cerr)) ∧
      (execute_task run_jam_script task e).events = e.events := by
  refine ⟨?_, ?_, c_str_of_no_nul task.command, ?_, ?_, execute_task_events _ _ _⟩
  · by_cases h : task.command = ""
    · simp [execute_task, h]
    · by_cases h2 : (run_jam_script (c_str task.command) e.world).1 = 0
      · simp [execute_task, execute_jam_script, h, h2]
      · simp [execute_task, execute_jam_script, h, h2]
  · by_cases h : task.command = ""
    · simp [execute_task, h]
    · by_cases h2 : code (c_str task.command) = 0
      · simp [execute_task, execute_jam_script, recording_interpreter, h, h2]
      · simp [execute_task, execute_jam_script, recording_interpreter, h, h2]
  · intro h
    simp [execute_task, h]
  · intro h
    by_cases h2 : (run_jam_script (c_str task.command) e.world).1 = 0
    · simp [execute_task, execute_jam_script, h, h2]
    · simp [execute_task, execute_jam_script, h, h2]

/-- Witness for C11: a failing script (exit code 3) and an empty command, with
the recording interpreter. -/
theorem execute_task_calls_interpreter_once_witness :
    (execute_task (recording_interpreter (fun _ => 3)) ⟨1, "a.script", 1⟩
        ⟨[], "", "", []⟩).world = ["a.script"] ∧
      (execute_task (recording_interpreter (fun _ => 3)) ⟨1, "a.script", 1⟩
        ⟨[], "", "", []⟩).cerr = "JAM execution failed with code: 3\n" ∧
      (execute_task (recording_interpreter (fun _ => 3)) ⟨2, "", 1⟩
        ⟨[], "", "", []⟩).world = [] := by
  have H := execute_task_calls_interpreter_once (recording_interpreter (fun _ => 3))
    (fun _ => 3) ⟨1, "a.script", 1⟩ ⟨[], "", "", []⟩ ⟨[], "", "", []⟩
  have H2 := execute_task_calls_interpreter_once (recording_interpreter (fun _ => 3))
    (fun _ => 3) ⟨2, "", 1⟩ ⟨[], "", "", []⟩ ⟨[], "", "", []⟩
  refine ⟨?_, ?_, ?_⟩
  · rw [H.2.1]; decide
  · rw [(H.2.2.2.2.1 (by decide)).2]; decide
  · rw [H2.2.1]; decide

/-- C13: for every store, `save_queues_to_file` sends to the file exactly the
lines `<id>,<priority>,<command>` (each ended by a newline, id and priority in
decimal, command as it is) of the high-queue tasks in queue order followed by
those of the low-queue tasks in queue order, with no header and nothing else
(an empty store gives the empty text; nothing is written when the file does not
open); the store it returns is the store it was given. -/
theorem save_queues_to_file_format (s : Store) (writable : Bool) :
    (save_queues_to_file true s).2
        = some (concat_text (s.rr_queue.map save_line ++ s.fcfs_queue.map save_line)) ∧
      (∀ t : Task, save_line t
        = toString t.id ++ "," ++ toString t.priority ++ "," ++ t.command ++ "\n") ∧
      (save_queues_to_file true ⟨[], [], s.task_id_counter⟩).2 = some "" ∧
      (save_queues_to_file true ⟨[⟨1, "a,b.script", 1⟩], [⟨-2, "x y", 0⟩], 3⟩).2
        = some "1,1,a,b.script\n-2,0,x y\n" ∧
      (save_queues_to_file false s).2 = none ∧
      (save_queues_to_file writable s).1 = s := by
  refine ⟨?_, fun _ => rfl, rfl, by decide, ?_, ?_⟩
  · rw [save_queues_to_file_eq]
    simp [snapshot]
  · rw [save_queues_to_file_eq]
    rfl
  · rw [save_queues_to_file_eq]

/-- C18: for every low queue of `n` tasks (any `n`), `fcfs_schedule` starts one
thread per task, in queue order, each running `execute_task` on its own copy of
the task; every start comes before the first join, and it returns after one
join per started thread. The store it returns differs from the one it was given
only in the emptied low queue, whatever the threads do, and what the threads do
does not depend on the high queue or the id counter. -/
theorem fcfs_schedule_spawns_then_joins {W : Type} (run_jam_script : String → W → Int × W)
    (s : Store) (e : Effects W) (rr0 : List Task) (c0 : Int) :
    (fcfs_schedule run_jam_script s e).2.events
        = e.events ++ s.fcfs_queue.map Event.spawn ++ s.fcfs_queue.map Event.join ∧
      (s.fcfs_queue.map Event.spawn).length = s.fcfs_queue.length ∧
      (s.fcfs_queue.map Event.join).length = s.fcfs_queue.length ∧
      executed (fcfs_schedule run_jam_script s e).2.events = executed e.events ++ s.fcfs_queue ∧
      (fcfs_schedule run_jam_script s e).1 = { s with fcfs_queue := [] } ∧
      (fcfs_schedule run_jam_script ⟨rr0, s.fcfs_queue, c0⟩ e).2
        = (fcfs_schedule run_jam_script s e).2 := by
  have hev : (fcfs_schedule run_jam_script s e).2.events
      = e.events ++ s.fcfs_queue.map Event.spawn ++ s.fcfs_queue.map Event.join := by
    simp [fcfs_schedule, fcfs_loop_eq, join_loop_events]
  refine ⟨hev, by simp, by simp, ?_, ?_, rfl⟩
  · rw [hev]
    simp [executed_append, executed_spawn, executed_join]
  · simp [fcfs_schedule, fcfs_loop_eq]

/-- C20, as stated, fails: with three queued tasks of id 7 (built with
`add_task`), `cancel_task 7` removes all three, where removing only the first
match would leave the second high task and the low task queued. -/
theorem cancel_task_removes_later_duplicates :
    add_task 7 "c.script" 2 (add_task 7 "b.script" 1 (add_task 7 "a.script" 1 Store.fresh))
        = ⟨[⟨7, "a.script", 1⟩, ⟨7, "b.script", 1⟩], [⟨7, "c.script", 2⟩], 1⟩ ∧
      (cancel_task 7 ⟨[⟨7, "a.script", 1⟩, ⟨7, "b.script", 1⟩], [⟨7, "c.script", 2⟩], 1⟩).1
        = ⟨[], [], 1⟩ ∧
      cancel_first_spec 7 ⟨[⟨7, "a.script", 1⟩, ⟨7, "b.script", 1⟩], [⟨7, "c.script", 2⟩], 1⟩
        = ⟨[⟨7, "b.script", 1⟩], [⟨7, "c.script", 2⟩], 1⟩ ∧
      (cancel_task 7 ⟨[⟨7, "a.script", 1⟩, ⟨7, "b.script", 1⟩], [⟨7, "c.script", 2⟩], 1⟩).1
        ≠ cancel_first_spec 7
            ⟨[⟨7, "a.script", 1⟩, ⟨7, "b.script", 1⟩], [⟨7, "c.script", 2⟩], 1⟩ := by
  decide

/-- C20, amended: for every store, duplicates included, `cancel_task id` removes
every task whose id matches, from both queues: each queue keeps exactly its
tasks with another id, unchanged and in the same order, no task with that id
stays queued, and the id counter is untouched. -/
theorem cancel_task_removes_all_matches (s : Store) (id : Int) :
    (cancel_task id s).1.rr_queue = s.rr_queue.filter (fun t => decide (t.id ≠ id)) ∧
      (cancel_task id s).1.fcfs_queue = s.fcfs_queue.filter (fun t => decide (t.id ≠ id)) ∧
      (∀ t ∈ snapshot (cancel_task id s).1, t.id ≠ id) ∧
      (∀ t ∈ snapshot s, t.id ≠ id → t ∈ snapshot (cancel_task id s).1) ∧
      (snapshot (cancel_task id s).1).Sublist (snapshot s) ∧
      (cancel_task id s).1.task_id_counter = s.task_id_counter := by
  rw [cancel_task_store]
  refine ⟨rfl, rfl, ?_, ?_, ?_, rfl⟩
  · intro t ht
    simp only [snapshot, List.mem_append, List.mem_filter, decide_eq_true_eq] at ht
    rcases ht with ht | ht
    · exact ht.2
    · exact ht.2
  · intro t ht hne
    simp only [snapshot, List.mem_append, List.mem_filter, decide_eq_true_eq] at ht ⊢
    rcases ht with ht | ht
    · exact Or.inl ⟨ht, hne⟩
    · exact Or.inr ⟨ht, hne⟩
  · simp only [snapshot]
    exact List.Sublist.append (List.filter_sublist _) (List.filter_sublist _)

/-- C12, as stated, fails for very long runs: after 2^31 - 1 successful
`jschedule_command` calls on the fresh store the 32-bit counter has wrapped to
-2147483648 while task 1 is still in the high queue, so a queued id is not
smaller than `task_id_counter`. -/
theorem queued_id_not_below_wrapped_counter :
    (run (fun (_ : String) (w : Unit) => ((0 : Int), w))
        (List.replicate 2147483647 (Op.add "a.script" 1 true))
        Store.fresh ⟨(), "", "", []⟩ []).1.task_id_counter = -2147483648 ∧
      (⟨1, "a.script", 1⟩ : Task) ∈
        (run (fun (_ : String) (w : Unit) => ((0 : Int), w))
          (List.replicate 2147483647 (Op.add "a.script" 1 true))
          Store.fresh ⟨(), "", "", []⟩ []).1.rr_queue ∧
      ¬ (∀ t ∈ snapshot (run (fun (_ : String) (w : Unit) => ((0 : Int), w))
          (List.replicate 2147483647 (Op.add "a.script" 1 true))
          Store.fresh ⟨(), "", "", []⟩ []).1,
        t.id < (run (fun (_ : String) (w : Unit) => ((0 : Int), w))
          (List.replicate 2147483647 (Op.add "a.script" 1 true))
          Store.fresh ⟨(), "", "", []⟩ []).1.task_id_counter) :=
  run_adds_wrapped_counter (fun (_ : String) (w : Unit) => ((0 : Int), w)) ⟨(), "", "", []⟩
    2147483647 (by norm_num)

/-- C12, amended: in every store reachable from the fresh store by a sequence of
`jschedule_command`, `cancel_task`, `modify_task`, `print_scheduled_tasks`,
`save_queues_to_file` and `multi_level_schedule` calls with at most 2^32
successful `jschedule_command` calls, every task id occurs at most once across
`rr_queue` and `fcfs_queue` together (never twice in one queue, never in both);
and when at most 2^31 - 2 of them succeeded (the counter has not wrapped),
every queued id is at least 1 and smaller than `task_id_counter`. -/
theorem reachable_ids_distinct_and_below_counter {W : Type}
    (run_jam_script : String → W → Int × W) (ops : List Op) (e : Effects W)
    (h : successfulAdds ops ≤ 4294967296) :
    ((snapshot (run run_jam_script ops Store.fresh e []).1).map Task.id).Nodup ∧
      ((run run_jam_script ops Store.fresh e []).1.rr_queue.map Task.id).Nodup ∧
      ((run run_jam_script ops Store.fresh e []).1.fcfs_queue.map Task.id).Nodup ∧
      (∀ t ∈ (run run_jam_script ops Store.fresh e []).1.rr_queue,
        ∀ u ∈ (run run_jam_script ops Store.fresh e []).1.fcfs_queue, t.id ≠ u.id) ∧
      (successfulAdds ops ≤ 2147483646 →
        ∀ t ∈ snapshot (run run_jam_script ops Store.fresh e []).1,
          1 ≤ t.id ∧ t.id < (run run_jam_script ops Store.fresh e []).1.task_id_counter) := by
  have hinv := counter_invariant_run run_jam_script ops Store.fresh e [] 0
    (by omega) counter_invariant_fresh
  rw [Nat.zero_add] at hinv
  obtain ⟨hc, hnd, hmem⟩ := hinv
  have hnd2 := hnd
  rw [snapshot, List.map_append, List.nodup_append] at hnd2
  refine ⟨hnd, hnd2.1, hnd2.2.1, ?_, ?_⟩
  · intro t ht u hu hid
    exact hnd2.2.2 (List.mem_map_of_mem _ ht) (hid ▸ List.mem_map_of_mem _ hu)
  · intro hsmall t ht
    obtain ⟨j, hj, hx⟩ := hmem t.id (List.mem_map_of_mem _ ht)
    have hjz : (j : Int) < successfulAdds ops := by exact_mod_cast hj
    have hkz : (successfulAdds ops : Int) ≤ 2147483646 := by exact_mod_cast hsmall
    rw [hc, hx]
    unfold wrapInt
    omega

/-- Witness for C12 (amended): the store after three adds, a cancel and a
modify holds tasks 2 and 3 with counter 4. -/
theorem reachable_ids_distinct_and_below_counter_witness :
    successfulAdds [Op.add "a.script" 1 true, Op.add "b.script" 2 true, Op.cancel 1,
        Op.add "c.script" 1 true, Op.modify 2 "d.script"] ≤ 4294967296 ∧
      ((snapshot (run (fun (_ : String) (w : Unit) => ((0 : Int), w))
        [Op.add "a.script" 1 true, Op.add "b.script" 2 true, Op.cancel 1,
          Op.add "c.script" 1 true, Op.modify 2 "d.script"]
        Store.fresh ⟨(), "", "", []⟩ []).1).map Task.id).Nodup ∧
      (run (fun (_ : String) (w : Unit) => ((0 : Int), w))
        [Op.add "a.script" 1 true, Op.add "b.script" 2 true, Op.cancel 1,
          Op.add "c.script" 1 true, Op.modify 2 "d.script"]
        Store.fresh ⟨(), "", "", []⟩ []).1
        = ⟨[⟨3, "c.script", 1⟩], [⟨2, "d.script", 2⟩], 4⟩ :=
  ⟨by decide,
    (reachable_ids_distinct_and_below_counter (fun (_ : String) (w : Unit) => ((0 : Int), w))
      [Op.add "a.script" 1 true, Op.add "b.script" 2 true, Op.cancel 1,
        Op.add "c.script" 1 true, Op.modify 2 "d.script"] ⟨(), "", "", []⟩ (by decide)).1,
    by decide⟩

/-- C14, on the code: called as the shell calls it (tokens, then the null
terminator), `handle_redirection_and_execute` on a token list without operator
never reaches its `fork`. The scanning loop runs over the terminator too and
hands the null pointer to `strcmp`: no call is made and no process is started,
for `ls`, for `ls -l` in the background, and for every operator-free token
list. -/
theorem simple_launch_faults_at_terminator :
    handle_redirection_and_execute ⟨fun _ _ => 3, 4, 5, fun _ => true⟩ [some "ls", none] false
        = ⟨⟨[], Ending.fault⟩, []⟩ ∧
      handle_redirection_and_execute ⟨fun _ _ => 3, 4, 5, fun _ => true⟩
          [some "ls", some "-l", none] true
        = ⟨⟨[], Ending.fault⟩, []⟩ ∧
      scan [some "ls", none] 0 = Scan.fault ∧
      (∀ (env : Env) (tokens : List String) (background : Bool),
        (∀ t ∈ tokens, is_operator t = false) →
          handle_redirection_and_execute env (tokens.map some ++ [none]) background
            = ⟨⟨[], Ending.fault⟩, []⟩) :=
  ⟨by decide, by decide, by decide, no_operator_launch_eq⟩

/-- C15: when the first operator token is a redirection operator (`>`, `>>` or
`<`) followed by a file name, `handle_redirection_and_execute` makes one `open`
call on that file name (`>`: write, create, truncate, mode 0644; `>>`: write,
create, append, mode 0644; `<`: read only), forks exactly one child and returns
(after `wait` unless `background`). The child, after its `dup2`, calls `execvp`
with the tokens before the operator as argv (followed by `perror` and `exit(1)`
only when `execvp` fails); when `open` succeeded, its standard output (for `>`
and `>>`) or standard input (for `<`) is the opened descriptor and the other of
the two streams is the inherited one. Nothing after the file name is looked
at: `rest` is arbitrary. When no token stands before the operator, the child
enters `execvp` with a null file and dies there. -/
theorem redirect_launches_one_process (env : Env) (pre : List String) (r : Redirect)
    (file : String) (rest : List (Option String)) (background : Bool)
    (hpre : ∀ t ∈ pre, is_operator t = false) :
    (handle_redirection_and_execute env
        (pre.map some ++ some (redirect_token r) :: some file :: rest) background).shell
      = ⟨[Call.c_open (some file) (open_args r).1 (open_args r).2, Call.c_fork]
          ++ (if background then [] else [Call.c_wait]), Ending.returned⟩ ∧
    (open_args Redirect.out_trunc = (OpenFlags.wronly_creat_trunc, some 420) ∧
      open_args Redirect.out_append = (OpenFlags.wronly_creat_append, some 420) ∧
      open_args Redirect.input = (OpenFlags.rdonly, none)) ∧
    (∃ child : Proc,
      (handle_redirection_and_execute env
        (pre.map some ++ some (redirect_token r) :: some file :: rest) background).children
        = [child] ∧
      (∀ (f : String) (more : List String), pre = f :: more →
        child.calls = redirect_dups r (env.open_ret (some file) (open_args r).1)
            ++ [Call.c_execvp (some f) pre]
            ++ (if env.exec_ok f then [] else [Call.c_perror "execvp", Call.c_exit 1]) ∧
        child.ending = (if env.exec_ok f then Ending.replaced else Ending.exited 1)) ∧
      (pre = [] →
        child.calls = redirect_dups r (env.open_ret (some file) (open_args r).1)
            ++ [Call.c_execvp none []] ∧
        child.ending = Ending.fault) ∧
      (0 ≤ env.open_ret (some file) (open_args r).1 →
        descriptor_at (redirect_target r) child.calls = env.open_ret (some file) (open_args r).1) ∧
      descriptor_at (1 - redirect_target r) child.calls = 1 - redirect_target r) := by
  rw [redirect_launch_eq env pre r file rest background hpre]
  refine ⟨rfl, ⟨rfl, rfl, rfl⟩, _, rfl, ?_, ?_, ?_, ?_⟩
  · intro f more hf
    subst hf
    show _ ++ (exec_of env (f :: more)).1 = _ ∧ (exec_of env (f :: more)).2 = _
    rw [exec_of_cons]
    by_cases hx : env.exec_ok f <;> simp [hx]
  · intro hnil
    subst hnil
    exact ⟨rfl, rfl⟩
  · intro hfd
    show descriptor_at _ (_ ++ (exec_of env pre).1) = _
    rw [descriptor_at_redirect]
    simp [hfd]
  · show descriptor_at _ (_ ++ (exec_of env pre).1) = _
    rw [descriptor_at_redirect]
    cases r <;> simp [redirect_target]

/-- Witness for C15: `echo hi > out.txt` with `open` returning descriptor 3. -/
theorem redirect_launches_one_process_witness :
    (∀ t ∈ ["echo", "hi"], is_operator t = false) ∧
      handle_redirection_and_execute ⟨fun _ _ => 3, 4, 5, fun _ => true⟩
          [some "echo", some "hi", some ">", some "out.txt", none] false
        = ⟨⟨[Call.c_open (some "out.txt") OpenFlags.wronly_creat_trunc (some 420), Call.c_fork,
              Call.c_wait], Ending.returned⟩,
            [⟨[Call.c_dup2 3 1, Call.c_execvp (some "echo") ["echo", "hi"]],
              Ending.replaced⟩]⟩ ∧
      (handle_redirection_and_execute ⟨fun _ _ => 3, 4, 5, fun _ => true⟩
          (["echo", "hi"].map some ++ some (redirect_token Redirect.out_trunc)
            :: some "out.txt" :: [none]) false).shell
        = ⟨[Call.c_open (some "out.txt") OpenFlags.wronly_creat_trunc (some 420), Call.c_fork,
              Call.c_wait], Ending.returned⟩ :=
  ⟨by decide, by decide,
    (redirect_launches_one_process ⟨fun _ _ => 3, 4, 5, fun _ => true⟩ ["echo", "hi"]
      Redirect.out_trunc "out.txt" [none] false (by decide)).1⟩

/-- C16, on the code: for `wc -l | sort` the function forks one child only (the
left group, standard output on the pipe), waits for that child, and then calls
`execvp` on the right group in the calling process itself, so the shell is
replaced by `sort` (or exits with status 1 when `execvp` fails) and the function
never returns; the background flag changes nothing. The same holds for every
line whose first operator is the pipe. -/
theorem pipe_replaces_the_shell :
    handle_redirection_and_execute ⟨fun _ _ => 3, 4, 5, fun _ => true⟩
        [some "wc", some "-l", some "|", some "sort", none] false
      = ⟨⟨[Call.c_pipe, Call.c_fork, Call.c_wait, Call.c_dup2 4 0, Call.c_close 5,
            Call.c_execvp (some "sort") ["sort"]], Ending.replaced⟩,
          [⟨[Call.c_dup2 5 1, Call.c_close 4, Call.c_execvp (some "wc") ["wc", "-l"]],
            Ending.replaced⟩]⟩ ∧
    handle_redirection_and_execute ⟨fun _ _ => 3, 4, 5, fun _ => true⟩
        [some "wc", some "-l", some "|", some "sort", none] true
      = handle_redirection_and_execute ⟨fun _ _ => 3, 4, 5, fun _ => true⟩
        [some "wc", some "-l", some "|", some "sort", none] false ∧
    (handle_redirection_and_execute ⟨fun _ _ => 3, 4, 5, fun _ => false⟩
        [some "wc", some "-l", some "|", some "sort", none] false).shell
      = ⟨[Call.c_pipe, Call.c_fork, Call.c_wait, Call.c_dup2 4 0, Call.c_close 5,
            Call.c_execvp (some "sort") ["sort"], Call.c_perror "execvp", Call.c_exit 1],
          Ending.exited 1⟩ ∧
    (∀ (env : Env) (pre right : List String) (background : Bool),
      (∀ t ∈ pre, is_operator t = false) →
        (handle_redirection_and_execute env
            (pre.map some ++ some "|" :: (right.map some ++ [none])) background).children.length
          = 1 ∧
        (handle_redirection_and_execute env
            (pre.map some ++ some "|" :: (right.map some ++ [none])) background).shell.ending
          ≠ Ending.returned) := by
  refine ⟨by decide, by decide, by decide, ?_⟩
  intro env pre right background hpre
  rw [pipe_launch_eq env pre right background hpre]
  exact ⟨rfl, exec_of_ne_returned env right⟩

/-- C17, as stated, fails: with `open` failing (-1) for `/nodir/out.txt`, the
line `echo hi > /nodir/out.txt` makes the shell call `open`, `fork` and `wait`
and nothing else (no error is reported), and the child still runs `echo hi`,
after a `dup2` on the descriptor -1 that leaves its standard output where it
was. -/
theorem redirect_open_failure_unreported :
    handle_redirection_and_execute ⟨fun _ _ => -1, 4, 5, fun _ => true⟩
        [some "echo", some "hi", some ">", some "/nodir/out.txt", none] false
      = ⟨⟨[Call.c_open (some "/nodir/out.txt") OpenFlags.wronly_creat_trunc (some 420),
            Call.c_fork, Call.c_wait], Ending.returned⟩,
          [⟨[Call.c_dup2 (-1) 1, Call.c_execvp (some "echo") ["echo", "hi"]],
            Ending.replaced⟩]⟩ ∧
    descriptor_at 1 [Call.c_dup2 (-1) 1, Call.c_execvp (some "echo") ["echo", "hi"]] = 1 := by
  decide

/-- C17, amended: `handle_redirection_and_execute` does not test what `open`
returns. When the target of `>`, `>>` or `<` cannot be opened (`open` returns a
negative value), the shell makes the `open` and `fork` calls (and `wait` unless
`background`), reports nothing and returns; the child still goes on to `execvp`
the tokens before the operator (the command, when there is one; with no token
before the operator it dies in `execvp` on the null file), its `dup2` on the
failed descriptor changes nothing, and both its standard streams are the
inherited ones. -/
theorem redirect_open_failure_still_launches (env : Env) (pre : List String) (r : Redirect)
    (file : String) (rest : List (Option String)) (background : Bool)
    (hpre : ∀ t ∈ pre, is_operator t = false)
    (hfail : env.open_ret (some file) (open_args r).1 < 0) :
    (handle_redirection_and_execute env
        (pre.map some ++ some (redirect_token r) :: some file :: rest) background).shell
      = ⟨[Call.c_open (some file) (open_args r).1 (open_args r).2, Call.c_fork]
          ++ (if background then [] else [Call.c_wait]), Ending.returned⟩ ∧
    (∀ msg : String, Call.c_perror msg ∉
      (handle_redirection_and_execute env
        (pre.map some ++ some (redirect_token r) :: some file :: rest) background).shell.calls) ∧
    (∃ child : Proc,
      (handle_redirection_and_execute env
        (pre.map some ++ some (redirect_token r) :: some file :: rest) background).children
        = [child] ∧
      (∀ (f : String) (more : List String), pre = f :: more →
        child.calls
          = [Call.c_dup2 (env.open_ret (some file) (open_args r).1) (redirect_target r),
              Call.c_execvp (some f) pre]
            ++ (if env.exec_ok f then [] else [Call.c_perror "execvp", Call.c_exit 1]) ∧
        child.ending = (if env.exec_ok f then Ending.replaced else Ending.exited 1)) ∧
      (pre = [] →
        child.calls
          = [Call.c_dup2 (env.open_ret (some file) (open_args r).1) (redirect_target r),
              Call.c_execvp none []] ∧
        child.ending = Ending.fault) ∧
      descriptor_at 0 child.calls = 0 ∧ descriptor_at 1 child.calls = 1) := by
  rw [redirect_launch_eq env pre r file rest background hpre]
  have hneg : ¬ (0 ≤ env.open_ret (some file) (open_args r).1) := by omega
  have h0 : env.open_ret (some file) (open_args r).1 ≠ 0 := by omega
  have h1 : env.open_ret (some file) (open_args r).1 ≠ 1 := by omega
  have hdups : redirect_dups r (env.open_ret (some file) (open_args r).1)
      = [Call.c_dup2 (env.open_ret (some file) (open_args r).1) (redirect_target r)] := by
    cases r <;> simp_all [redirect_dups, redirect_target]
  refine ⟨rfl, ?_, _, rfl, ?_, ?_, ?_, ?_⟩
  · intro msg
    cases background <;> simp
  · intro f more hf
    subst hf
    show _ ++ (exec_of env (f :: more)).1 = _ ∧ (exec_of env (f :: more)).2 = _
    rw [exec_of_cons, hdups]
    by_cases hx : env.exec_ok f <;> simp [hx]
  · intro hnil
    subst hnil
    show _ ++ (exec_of env []).1 = _ ∧ (exec_of env []).2 = _
    rw [hdups]
    exact ⟨rfl, rfl⟩
  · show descriptor_at _ (_ ++ (exec_of env pre).1) = _
    rw [descriptor_at_redirect]
    simp [hneg]
  · show descriptor_at _ (_ ++ (exec_of env pre).1) = _
    rw [descriptor_at_redirect]
    simp [hneg]

/-- Witness for C17 (amended): `cat < missing.txt` with `open` failing. -/
theorem redirect_open_failure_still_launches_witness :
    (∀ t ∈ ["cat"], is_operator t = false) ∧
      (⟨fun _ _ => -1, 4, 5, fun _ => true⟩ : Env).open_ret (some "missing.txt")
        (open_args Redirect.input).1 < 0 ∧
      (handle_redirection_and_execute ⟨fun _ _ => -1, 4, 5, fun _ => true⟩
        (["cat"].map some ++ some (redirect_token Redirect.input) :: some "missing.txt"
          :: [none]) false).shell
        = ⟨[Call.c_open (some "missing.txt") OpenFlags.rdonly none, Call.c_fork, Call.c_wait],
            Ending.returned⟩ :=
  ⟨by decide, by decide,
    (redirect_open_failure_still_launches ⟨fun _ _ => -1, 4, 5, fun _ => true⟩ ["cat"]
      Redirect.input "missing.txt" [none] false (by decide) (by decide)).1⟩

/-- C19, as stated, fails: when `command -v` accepts the line, `run_shell_loop`
does not call the pipeline executor. The line `ls -l > out.txt` (no alias, no
variable), whose first token is no built-in, goes to
`execute_shell_command`. -/
theorem path_command_bypasses_pipeline :
    "ls" ∉ builtin_names ∧
      apply_aliases (fun _ => none) "ls -l > out.txt" = some "ls -l > out.txt" ∧
      expand_env_variables (fun _ => none) "ls -l > out.txt" = some "ls -l > out.txt " ∧
      ((split_spaces "ls -l > out.txt ".toList []).map String.mk = ["ls", "-l", ">", "out.txt"]) ∧
      (∃ cmd, dispatch (fun _ => none) (fun _ => none) (fun _ => true) "ls -l > out.txt"
        = Dispatch.shell_command cmd) ∧
      (∀ args background,
        dispatch (fun _ => none) (fun _ => none) (fun _ => true) "ls -l > out.txt"
          ≠ Dispatch.pipeline args background) := by
  have h2 : dispatch (fun _ => none) (fun _ => none) (fun _ => true) "ls -l > out.txt"
      = Dispatch.shell_command "ls" := by decide
  refine ⟨by decide, by decide, by decide, by decide, ⟨"ls", h2⟩, ?_⟩
  intro args background h
  rw [h2] at h
  cases h

/-- C19, amended: a line that begins with `exit` leaves the loop. For every other
non-empty input line whose text after alias and environment expansion fits
the line buffer and has fewer than 64 tokens, the first of which is not one of
the built-in names, `run_shell_loop` asks `is_shell_command`. When the answer is
no, it hands the complete token list of the expanded line, with a last `&`
removed and turned into `background = true`, followed by the null terminator,
to `handle_redirection_and_execute`. When the answer is yes, the line goes to
`execute_shell_command` and the pipeline executor is not called. -/
theorem non_builtin_line_dispatch (aliases getenv : String → Option String)
    (is_shell_command : String → Bool) (line aliased input : String)
    (t0 : String) (ts : List String)
    (hne : line ≠ "") (hexit : line.data.take 4 ≠ ['e', 'x', 'i', 't'])
    (ha : apply_aliases aliases line = some aliased)
    (he : expand_env_variables getenv aliased = some input)
    (htok : (split_spaces input.toList []).map String.mk = t0 :: ts)
    (hlen : (t0 :: ts).length < 64) (hnb : t0 ∉ builtin_names) :
    (is_shell_command (c_input input) = false →
      dispatch aliases getenv is_shell_command line
        = Dispatch.pipeline
            (if (t0 :: ts).getLast? = some "&" then (t0 :: ts).dropLast.map some ++ [none]
              else (t0 :: ts).map some ++ [none])
            (decide ((t0 :: ts).getLast? = some "&"))) ∧
    (is_shell_command (c_input input) = true →
      (∃ cmd, dispatch aliases getenv is_shell_command line = Dispatch.shell_command cmd) ∧
      ∀ args background,
        dispatch aliases getenv is_shell_command line ≠ Dispatch.pipeline args background) ∧
    (∀ other : String, other.data.take 4 = ['e', 'x', 'i', 't'] →
      dispatch aliases getenv is_shell_command other = Dispatch.leave) := by
  have hl : ¬ 64 ≤ (split_spaces input.toList []).length := by
    have : ((split_spaces input.toList []).map String.mk).length = (t0 :: ts).length := by
      rw [htok]
    rw [List.length_map] at this
    omega
  have hb := builtin_branch_none t0 (t0 :: ts).length hnb
  have hdt : dispatch_tokens is_shell_command input
      = if is_shell_command (c_input input) then Dispatch.shell_command (c_input input)
        else Dispatch.pipeline (pipeline_args (t0 :: ts)).1 (pipeline_args (t0 :: ts)).2 := by
    unfold dispatch_tokens
    simp only [hl, if_false, htok, hb]
  have hd : dispatch aliases getenv is_shell_command line
      = dispatch_tokens is_shell_command input := by
    unfold dispatch
    simp only [hne, hexit, if_false, ha, he]
  refine ⟨?_, ?_, ?_⟩
  · intro hno
    rw [hd, hdt, hno]
    by_cases hamp : (t0 :: ts).getLast? = some "&"
    · simp [pipeline_args, hamp]
    · simp [pipeline_args, hamp]
  · intro hyes
    rw [hd, hdt, hyes]
    exact ⟨⟨_, rfl⟩, fun args background h => by simp at h⟩
  · intro other hother
    have hne2 : other ≠ "" := by
      intro h0
      rw [h0] at hother
      simp at hother
    unfold dispatch
    simp only [hne2, hother, if_false, if_true]

/-- Witness for C19 (amended): `./prog -v | sort &` (no alias, no variable) with
`command -v` failing goes to the pipeline executor in the background. -/
theorem non_builtin_line_dispatch_witness :
    "./prog -v | sort &" ≠ "" ∧
      "./prog -v | sort &".data.take 4 ≠ ['e', 'x', 'i', 't'] ∧
      apply_aliases (fun _ => none) "./prog -v | sort &" = some "./prog -v | sort &" ∧
      expand_env_variables (fun _ => none) "./prog -v | sort &" = some "./prog -v | sort & " ∧
      (split_spaces "./prog -v | sort & ".toList []).map String.mk
        = ["./prog", "-v", "|", "sort", "&"] ∧
      dispatch (fun _ => none) (fun _ => none) (fun _ => false) "./prog -v | sort &"
        = Dispatch.pipeline [some "./prog", some "-v", some "|", some "sort", none] true :=
  ⟨by decide, by decide, by decide, by decide, by decide,
    ((non_builtin_line_dispatch (fun _ => none) (fun _ => none) (fun _ => false)
      "./prog -v | sort &" "./prog -v | sort &" "./prog -v | sort & " "./prog"
      ["-v", "|", "sort", "&"] (by decide) (by decide) (by decide) (by decide) (by decide)
      (by decide) (by decide)).1 rfl).trans (by decide)⟩

/-- C21: the saved text determines both queues. For any two stores in which
every high-queue task has priority 1, every low-queue task has another
priority and no command holds a newline character, if `save_queues_to_file`
writes the same text for both, then they have the same high queue and the same
low queue (same tasks, same order). Commands may hold commas; the id counters
may differ. -/
theorem saved_text_determines_queues (s1 s2 : Store)
    (hrr1 : ∀ t ∈ s1.rr_queue, t.priority = 1) (hfc1 : ∀ t ∈ s1.fcfs_queue, t.priority ≠ 1)
    (hrr2 : ∀ t ∈ s2.rr_queue, t.priority = 1) (hfc2 : ∀ t ∈ s2.fcfs_queue, t.priority ≠ 1)
    (hnl1 : ∀ t ∈ snapshot s1, '\n' ∉ t.command.data)
    (hnl2 : ∀ t ∈ snapshot s2, '\n' ∉ t.command.data)
    (htext : (save_queues_to_file true s1).2 = (save_queues_to_file true s2).2) :
    s1.rr_queue = s2.rr_queue ∧ s1.fcfs_queue = s2.fcfs_queue := by
  rw [save_queues_to_file_eq, save_queues_to_file_eq] at htext
  simp only [if_true, Option.some.injEq] at htext
  have hchars : text_chars (snapshot s1) = text_chars (snapshot s2) := by
    rw [← concat_text_data, ← concat_text_data, htext]
  have hsnap : snapshot s1 = snapshot s2 :=
    text_chars_injective (snapshot s1) (snapshot s2) hnl1 hnl2 hchars
  exact split_by_priority s1.rr_queue s2.rr_queue s1.fcfs_queue s2.fcfs_queue
    hrr1 hrr2 hfc1 hfc2 hsnap

/-- Witness for C21: two stores with different id counters, commands with
commas, and the same saved text `1,1,a,b.script` / `-4,0,x,1,y`. -/
theorem saved_text_determines_queues_witness :
    (save_queues_to_file true ⟨[⟨1, "a,b.script", 1⟩], [⟨-4, "x,1,y", 0⟩], 2⟩).2
        = some "1,1,a,b.script\n-4,0,x,1,y\n" ∧
      (⟨[⟨1, "a,b.script", 1⟩], [⟨-4, "x,1,y", 0⟩], 2⟩ : Store).rr_queue
        = (⟨[⟨1, "a,b.script", 1⟩], [⟨-4, "x,1,y", 0⟩], 9⟩ : Store).rr_queue ∧
      (⟨[⟨1, "a,b.script", 1⟩], [⟨-4, "x,1,y", 0⟩], 2⟩ : Store).fcfs_queue
        = (⟨[⟨1, "a,b.script", 1⟩], [⟨-4, "x,1,y", 0⟩], 9⟩ : Store).fcfs_queue :=
  ⟨by decide,
    saved_text_determines_queues ⟨[⟨1, "a,b.script", 1⟩], [⟨-4, "x,1,y", 0⟩], 2⟩
      ⟨[⟨1, "a,b.script", 1⟩], [⟨-4, "x,1,y", 0⟩], 9⟩
      (by decide) (by decide) (by decide) (by decide) (by decide) (by decide) (by decide)⟩

end Scheduler
